import Mathlib

/-!
Shallow embedding of the ledger core of the `go-projects` repository
(`internal/services/balance_service.go`, `internal/services/transaction_service.go`,
and the models / migrations).

Modelling choices:
* Monetary amounts are exact rationals (`ℚ`), matching the persisted
  `DECIMAL(20,2)` columns of the schema; arithmetic is exact.
* The SQL store is a `Ledger` value: the `balances`, `balance_history` and
  `transactions` tables as lists (rows in insertion order), together with the
  auto-increment counters and a logical clock supplying `created_at` /
  `last_updated_at` timestamps (each row insertion ticks the clock, so
  timestamps are strictly increasing, as `CURRENT_TIMESTAMP` with
  sub-second resolution / monotone insertion order).
* A `db.Begin … Commit` block with `defer tx.Rollback()` is modelled by
  building a candidate state and discarding it on error: an operation
  returns `OpResult`, carrying the committed post-state both on success
  and on failure.
* Errors are the exact strings produced by the Go code
  (`"insufficient balance"`, `"transaction already rolled back"`, …);
  `fmt.Errorf("…: %w", err)` wrapping is string concatenation.
* Environment-level storage failures (connection loss, failed `INSERT`) are
  not modelled: the model store always performs the requested row operation.
  In particular the history `INSERT` inside `updateBalanceInTx`, whose
  failure the Go code only logs, always succeeds here; reconciliation
  theorems therefore quantify over arbitrary (possibly drifted) states.
-/

namespace LedgerSpec

/-- `models.Balance` (one row of the `balances` table). -/
structure Balance where
  userId : Nat
  amount : ℚ
  lastUpdatedAt : Nat
deriving Repr, DecidableEq

/-- `models.BalanceHistory` (one row of the `balance_history` table). -/
structure BalanceHistory where
  id : Nat
  userId : Nat
  balance : ℚ
  changeAmount : ℚ
  transactionId : Option Nat
  createdAt : Nat
deriving Repr, DecidableEq

/-- `models.TransactionType`: the three constants `"credit"`, `"debit"`,
`"transfer"`. -/
inductive TransactionType where
  | credit
  | debit
  | transfer
deriving Repr, DecidableEq

/-- `models.TransactionStatus`: the four constants `"pending"`,
`"completed"`, `"failed"`, `"rolled_back"`. -/
inductive TransactionStatus where
  | pending
  | completed
  | failed
  | rolled_back
deriving Repr, DecidableEq

/-- `models.Transaction` (one row of the `transactions` table). -/
structure Transaction where
  id : Nat
  fromUserId : Option Nat
  toUserId : Option Nat
  amount : ℚ
  ty : TransactionType
  status : TransactionStatus
  createdAt : Nat
deriving Repr, DecidableEq

/-- `models.CreditRequest`. -/
structure CreditRequest where
  userId : Nat
  amount : ℚ
deriving Repr, DecidableEq

/-- `models.DebitRequest`. -/
structure DebitRequest where
  userId : Nat
  amount : ℚ
deriving Repr, DecidableEq

/-- `models.TransferRequest`. -/
structure TransferRequest where
  fromUserId : Nat
  toUserId : Nat
  amount : ℚ
deriving Repr, DecidableEq

/-- The persisted store: the three tables of the migration, the
auto-increment counters and the logical clock. -/
structure Ledger where
  balances : List Balance
  history : List BalanceHistory
  transactions : List Transaction
  nextTransactionId : Nat
  nextHistoryId : Nat
  clock : Nat
deriving Repr, DecidableEq

/-- `SELECT … FROM balances WHERE user_id = ?` (the primary key makes the
row unique; on a list we take the first match). -/
def findBalance (bs : List Balance) (uid : Nat) : Option Balance :=
  bs.find? (fun b => b.userId == uid)

/-- `UPDATE balances SET amount = ?, last_updated_at = NOW() WHERE user_id = ?`. -/
def setBalanceAmount (bs : List Balance) (uid : Nat) (amt : ℚ) (now : Nat) :
    List Balance :=
  bs.map (fun b => if b.userId == uid then
    { b with amount := amt, lastUpdatedAt := now } else b)

/-- `INSERT INTO balance_history (user_id, balance, change_amount,
transaction_id) VALUES (?, ?, ?, NULL)` — both history inserts of
`updateBalanceInTx` pass `NULL` for `transaction_id`. -/
def appendHistory (st : Ledger) (uid : Nat) (bal chg : ℚ) : Ledger :=
  { st with
    history := st.history ++
      [{ id := st.nextHistoryId, userId := uid, balance := bal,
         changeAmount := chg, transactionId := none, createdAt := st.clock }],
    nextHistoryId := st.nextHistoryId + 1,
    clock := st.clock + 1 }

/-- `BalanceService.GetBalance`: read the row; if `sql.ErrNoRows`, execute
`INSERT INTO balances (user_id, amount) VALUES (?, 0)` (outside any
transaction) and return a zero balance. Never fails in the model store. -/
def GetBalance (st : Ledger) (userId : Nat) : Balance × Ledger :=
  match findBalance st.balances userId with
  | some b => (b, st)
  | none =>
    ({ userId := userId, amount := 0, lastUpdatedAt := st.clock },
     { st with
       balances := st.balances ++
         [{ userId := userId, amount := 0, lastUpdatedAt := st.clock }],
       clock := st.clock + 1 })

/-- `BalanceService.updateBalanceInTx`: read the row `FOR UPDATE`; when
absent, `newBalance := amount`, reject if negative, else insert the row and
append history; when present, `newBalance := current + amount`, reject if
negative, else update the row and append history. -/
def updateBalanceInTx (st : Ledger) (userId : Nat) (amount : ℚ) :
    Except String Ledger :=
  match findBalance st.balances userId with
  | none =>
    let newBalance := amount
    if newBalance < 0 then
      .error "insufficient balance"
    else
      let st1 := { st with
        balances := st.balances ++
          [{ userId := userId, amount := newBalance, lastUpdatedAt := st.clock }],
        clock := st.clock + 1 }
      .ok (appendHistory st1 userId newBalance amount)
  | some b =>
    let newBalance := b.amount + amount
    if newBalance < 0 then
      .error "insufficient balance"
    else
      let st1 := { st with
        balances := setBalanceAmount st.balances userId newBalance st.clock,
        clock := st.clock + 1 }
      .ok (appendHistory st1 userId newBalance amount)

/-- `INSERT INTO transactions (from_user_id, to_user_id, amount, type,
status) VALUES (…)` followed by `LastInsertId`. -/
def insertTransaction (st : Ledger) (fromId toId : Option Nat) (amount : ℚ)
    (ty : TransactionType) (status : TransactionStatus) : Nat × Ledger :=
  (st.nextTransactionId,
   { st with
     transactions := st.transactions ++
       [{ id := st.nextTransactionId, fromUserId := fromId, toUserId := toId,
          amount := amount, ty := ty, status := status, createdAt := st.clock }],
     nextTransactionId := st.nextTransactionId + 1,
     clock := st.clock + 1 })

/-- `UPDATE transactions SET status = ? WHERE id = ?`. -/
def setTransactionStatus (st : Ledger) (txId : Nat)
    (status : TransactionStatus) : Ledger :=
  let updated := st.transactions.map
    (fun t => if t.id == txId then { t with status := status } else t)
  { st with transactions := updated }

/-- `TransactionService.GetTransactionByID`. -/
def GetTransactionByID (st : Ledger) (txId : Nat) : Except String Transaction :=
  match st.transactions.find? (fun t => t.id == txId) with
  | none => .error "transaction not found"
  | some t => .ok t

/-- Result of a service call: the returned value or error string, together
with the state of the store after the call (an aborted `db.Begin` block
leaves the pre-`Begin` state). -/
inductive OpResult (α : Type) where
  | ok : α → Ledger → OpResult α
  | err : String → Ledger → OpResult α
deriving Repr

/-- The store state after the call, success or not. -/
def OpResult.state {α : Type} : OpResult α → Ledger
  | .ok _ st => st
  | .err _ st => st

/-- `TransactionService.Credit`: validate the amount; in one transaction,
insert a `pending` credit record, apply `+amount` via `updateBalanceInTx`,
set the record `completed`; commit; re-read the record. -/
def Credit (st : Ledger) (req : CreditRequest) : OpResult Transaction :=
  if req.amount ≤ 0 then
    .err "amount must be greater than zero" st
  else
    let p := insertTransaction st none (some req.userId) req.amount
        TransactionType.credit TransactionStatus.pending
    match updateBalanceInTx p.2 req.userId req.amount with
    | .error e => .err ("failed to update balance: " ++ e) st
    | .ok st2 =>
      let st3 := setTransactionStatus st2 p.1 .completed
      match GetTransactionByID st3 p.1 with
      | .error e => .err e st3
      | .ok t => .ok t st3

/-- `TransactionService.Debit`: validate the amount; advisory pre-check via
`GetBalance` (outside the transaction — may insert a zero row); in one
transaction, insert a `pending` debit record, apply `-amount`, set the
record `completed`; commit; re-read the record. -/
def Debit (st : Ledger) (req : DebitRequest) : OpResult Transaction :=
  if req.amount ≤ 0 then
    .err "amount must be greater than zero" st
  else
    let g := GetBalance st req.userId
    if g.1.amount < req.amount then
      .err "insufficient balance" g.2
    else
      let p := insertTransaction g.2 (some req.userId) none req.amount
          TransactionType.debit TransactionStatus.pending
      match updateBalanceInTx p.2 req.userId (-req.amount) with
      | .error e => .err ("failed to update balance: " ++ e) g.2
      | .ok st2 =>
        let st3 := setTransactionStatus st2 p.1 .completed
        match GetTransactionByID st3 p.1 with
        | .error e => .err e st3
        | .ok t => .ok t st3

/-- `TransactionService.Transfer`: validate amount and distinct accounts;
advisory pre-check of the sender via `GetBalance`; in one transaction,
insert a `pending` transfer record, apply `-amount` to the sender and
`+amount` to the receiver, set the record `completed`; commit; re-read. -/
def Transfer (st : Ledger) (req : TransferRequest) : OpResult Transaction :=
  if req.amount ≤ 0 then
    .err "amount must be greater than zero" st
  else if req.fromUserId == req.toUserId then
    .err "cannot transfer to the same account" st
  else
    let g := GetBalance st req.fromUserId
    if g.1.amount < req.amount then
      .err "insufficient balance" g.2
    else
      let p := insertTransaction g.2 (some req.fromUserId) (some req.toUserId)
          req.amount TransactionType.transfer TransactionStatus.pending
      match updateBalanceInTx p.2 req.fromUserId (-req.amount) with
      | .error e => .err ("failed to debit from sender: " ++ e) g.2
      | .ok stA =>
        match updateBalanceInTx stA req.toUserId req.amount with
        | .error e => .err ("failed to credit to receiver: " ++ e) g.2
        | .ok stB =>
          let st3 := setTransactionStatus stB p.1 .completed
          match GetTransactionByID st3 p.1 with
          | .error e => .err e st3
          | .ok t => .ok t st3

/-- The compensating balance updates of `RollbackTransaction`, by
transaction type (the `switch` statement, including the nil-pointer guards
that silently skip the compensation when an account reference is absent). -/
def rollbackDeltas (st : Ledger) (transaction : Transaction) :
    Except String Ledger :=
  match transaction.ty with
  | .credit =>
    match transaction.toUserId with
    | some toId =>
      match updateBalanceInTx st toId (-transaction.amount) with
      | .error e => .error ("failed to reverse credit: " ++ e)
      | .ok st1 => .ok st1
    | none => .ok st
  | .debit =>
    match transaction.fromUserId with
    | some fromId =>
      match updateBalanceInTx st fromId transaction.amount with
      | .error e => .error ("failed to reverse debit: " ++ e)
      | .ok st1 => .ok st1
    | none => .ok st
  | .transfer =>
    match transaction.fromUserId, transaction.toUserId with
    | some fromId, some toId =>
      match updateBalanceInTx st fromId transaction.amount with
      | .error e => .error ("failed to reverse transfer (sender): " ++ e)
      | .ok stA =>
        match updateBalanceInTx stA toId (-transaction.amount) with
        | .error e => .error ("failed to reverse transfer (receiver): " ++ e)
        | .ok stB => .ok stB
    | _, _ => .ok st

/-- `TransactionService.RollbackTransaction`: fetch the record; reject when
already `rolled_back`, reject when not `completed`; in one transaction apply
the compensating deltas and set the status to `rolled_back`; commit. -/
def RollbackTransaction (st : Ledger) (transactionId : Nat) : OpResult Unit :=
  match GetTransactionByID st transactionId with
  | .error e => .err e st
  | .ok transaction =>
    if transaction.status = .rolled_back then
      .err "transaction already rolled back" st
    else if transaction.status ≠ .completed then
      .err "only completed transactions can be rolled back" st
    else
      match rollbackDeltas st transaction with
      | .error e => .err e st
      | .ok st1 => .ok () (setTransactionStatus st1 transactionId .rolled_back)

/-- `BalanceService.UpdateBalance`: acquire the account's mutex, run
`updateBalanceInTx` in one transaction, commit. -/
def UpdateBalance (st : Ledger) (userId : Nat) (amount : ℚ) : OpResult Unit :=
  match updateBalanceInTx st userId amount with
  | .error e => .err e st
  | .ok st1 => .ok () st1

/-- `BalanceService.CalculateBalanceFromHistory`:
`SELECT COALESCE(SUM(change_amount), 0) FROM balance_history WHERE user_id = ?`. -/
def CalculateBalanceFromHistory (st : Ledger) (userId : Nat) : ℚ :=
  (st.history.filter (fun e => e.userId == userId)).foldl
    (fun acc e => acc + e.changeAmount) 0

/-- `BalanceService.ReconcileBalance`: read the current balance (via
`GetBalance`, which may initialise a zero row), sum the history deltas, and
log a warning when they differ. The returned `Bool` is whether the
"Balance discrepancy detected" warning was logged; the Go function then
returns `nil`. -/
def ReconcileBalance (st : Ledger) (userId : Nat) : Ledger × Bool :=
  let g := GetBalance st userId
  let calculated := CalculateBalanceFromHistory g.2 userId
  (g.2, if g.1.amount = calculated then false else true)

/-- The row selected by `SELECT balance FROM balance_history WHERE user_id
= ? AND created_at <= ? ORDER BY created_at DESC LIMIT 1`: among the rows of
the account with `created_at ≤ t`, the one with maximal `created_at` (on a
tie the later-inserted row is kept; committed states have strictly
increasing timestamps, so ties do not arise). -/
def latestHistoryAtOrBefore : List BalanceHistory → Nat → Nat →
    Option BalanceHistory
  | [], _, _ => none
  | e :: hs, uid, t =>
    match latestHistoryAtOrBefore hs uid t with
    | none => if e.userId == uid && e.createdAt ≤ t then some e else none
    | some b =>
      if (e.userId == uid && e.createdAt ≤ t) && b.createdAt < e.createdAt then
        some e
      else some b

/-- `BalanceService.GetBalanceAtTime`: the `balance` of the selected history
row, or `0` on `sql.ErrNoRows`. -/
def GetBalanceAtTime (st : Ledger) (userId : Nat) (t : Nat) : ℚ :=
  match latestHistoryAtOrBefore st.history userId t with
  | some e => e.balance
  | none => 0

/-- The core operations of the orchestrator and the balance service. -/
inductive CoreOp where
  | credit (req : CreditRequest)
  | debit (req : DebitRequest)
  | transfer (req : TransferRequest)
  | rollback (transactionId : Nat)
  | updateBalance (userId : Nat) (amount : ℚ)
deriving Repr

/-- The committed store state after running one core operation
(success or failure). -/
def applyOp (st : Ledger) : CoreOp → Ledger
  | .credit req => (Credit st req).state
  | .debit req => (Debit st req).state
  | .transfer req => (Transfer st req).state
  | .rollback transactionId => (RollbackTransaction st transactionId).state
  | .updateBalance userId amount => (UpdateBalance st userId amount).state

/-- The account ids each operation passes to `BalanceService.getMutex`
(the lazily created per-account `sync.Mutex`), in acquisition order, read
off the source: `UpdateBalance` locks its single account
(balance_service.go lines 119–121); `Credit`, `Debit`, `Transfer` and
`RollbackTransaction` contain no `getMutex` call at all. -/
def guardsAcquired : CoreOp → List Nat
  | .credit _ => []
  | .debit _ => []
  | .transfer _ => []
  | .rollback _ => []
  | .updateBalance userId _ => [userId]

/-- The current balance amount of an account as readers see it: the row's
`amount`, or `0` when no row exists. -/
def balAmount (st : Ledger) (uid : Nat) : ℚ :=
  match findBalance st.balances uid with
  | some b => b.amount
  | none => 0

/-- Data-model invariant `amount ≥ 0` over every persisted balance row. -/
def allBalancesNonneg (st : Ledger) : Prop :=
  ∀ b ∈ st.balances, 0 ≤ b.amount

/-- Every persisted history row has a `NULL` `transaction_id`. -/
def historyUnlinked (st : Ledger) : Prop :=
  ∀ e ∈ st.history, e.transactionId = none

/-- Every persisted transaction record is `completed` or `rolled_back`
(never observably `pending` or `failed`). -/
def statusesCommitted (st : Ledger) : Prop :=
  ∀ t ∈ st.transactions,
    t.status = TransactionStatus.completed ∨
    t.status = TransactionStatus.rolled_back

/-- Auto-increment discipline: every persisted transaction id is below the
counter. -/
def freshTransactionIds (st : Ledger) : Prop :=
  ∀ t ∈ st.transactions, t.id < st.nextTransactionId

/-! ### Helper lemmas about the store primitives -/

theorem findBalance_nil (uid : Nat) : findBalance [] uid = none := rfl

theorem findBalance_cons_pos {hd : Balance} {uid : Nat} (h : hd.userId = uid)
    (tl : List Balance) : findBalance (hd :: tl) uid = some hd := by
  simp [findBalance, List.find?_cons_of_pos, h]

theorem findBalance_cons_neg {hd : Balance} {uid : Nat} (h : hd.userId ≠ uid)
    (tl : List Balance) : findBalance (hd :: tl) uid = findBalance tl uid := by
  simp only [findBalance]
  rw [List.find?_cons_of_neg]
  simp [h]

theorem findBalance_append_none {bs : List Balance} {uid : Nat}
    (h : findBalance bs uid = none) (row : Balance) :
    findBalance (bs ++ [row]) uid =
      if row.userId = uid then some row else none := by
  simp only [findBalance] at h ⊢
  rw [List.find?_append, h, Option.none_or]
  by_cases hr : row.userId = uid
  · rw [if_pos hr, List.find?_cons_of_pos _ (by simp [hr])]
  · rw [if_neg hr, List.find?_cons_of_neg _ (by simp [hr])]
    rfl

theorem findBalance_append_other {bs : List Balance} {v : Nat} {row : Balance}
    (h : row.userId ≠ v) :
    findBalance (bs ++ [row]) v = findBalance bs v := by
  simp only [findBalance]
  rw [List.find?_append]
  cases hfb : bs.find? (fun b => b.userId == v) with
  | some b => rfl
  | none =>
    rw [Option.none_or, List.find?_cons_of_neg _ (by simp [h])]
    rfl

theorem setBalanceAmount_cons (hd : Balance) (tl : List Balance) (uid : Nat)
    (amt : ℚ) (now : Nat) :
    setBalanceAmount (hd :: tl) uid amt now =
      (if hd.userId = uid then { hd with amount := amt, lastUpdatedAt := now }
        else hd) :: setBalanceAmount tl uid amt now := by
  simp only [setBalanceAmount, List.map_cons]
  congr 1
  by_cases hhd : hd.userId = uid
  · rw [if_pos (by simp [hhd]), if_pos hhd]
  · rw [if_neg (by simp [hhd]), if_neg hhd]

theorem findBalance_setBalanceAmount_self {bs : List Balance} {uid : Nat}
    {b : Balance} (h : findBalance bs uid = some b) (amt : ℚ) (now : Nat) :
    findBalance (setBalanceAmount bs uid amt now) uid =
      some { b with amount := amt, lastUpdatedAt := now } := by
  induction bs with
  | nil => exact absurd h (by simp [findBalance])
  | cons hd tl ih =>
    rw [setBalanceAmount_cons]
    by_cases hhd : hd.userId = uid
    · rw [findBalance_cons_pos hhd] at h
      injection h with h
      subst h
      rw [if_pos hhd]
      exact findBalance_cons_pos (by exact hhd) _
    · rw [findBalance_cons_neg hhd] at h
      rw [if_neg hhd, findBalance_cons_neg hhd]
      exact ih h

theorem findBalance_setBalanceAmount_other {bs : List Balance} {uid v : Nat}
    (hne : v ≠ uid) (amt : ℚ) (now : Nat) :
    findBalance (setBalanceAmount bs uid amt now) v = findBalance bs v := by
  induction bs with
  | nil => rfl
  | cons hd tl ih =>
    rw [setBalanceAmount_cons]
    by_cases hhd : hd.userId = uid
    · have h2 : hd.userId ≠ v := by rw [hhd]; exact Ne.symm hne
      rw [if_pos hhd, findBalance_cons_neg (by exact h2), findBalance_cons_neg h2]
      exact ih
    · rw [if_neg hhd]
      by_cases h2 : hd.userId = v
      · rw [findBalance_cons_pos h2, findBalance_cons_pos h2]
      · rw [findBalance_cons_neg h2, findBalance_cons_neg h2]
        exact ih

theorem setBalanceAmount_nonneg {bs : List Balance} {uid : Nat} {amt : ℚ}
    {now : Nat} (h : ∀ b ∈ bs, 0 ≤ b.amount) (hamt : 0 ≤ amt) :
    ∀ b ∈ setBalanceAmount bs uid amt now, 0 ≤ b.amount := by
  intro b hb
  simp only [setBalanceAmount, List.mem_map] at hb
  obtain ⟨a, ha, rfl⟩ := hb
  by_cases hc : (a.userId == uid) = true
  · rw [if_pos hc]
    exact hamt
  · rw [if_neg hc]
    exact h a ha

/-! ### Characterisation of `updateBalanceInTx` -/

/-- The committed state produced by a successful `updateBalanceInTx`
(read off its two branches): the balance row written or updated to
`current + amount`, and one history row appended. -/
def ubitPost (st : Ledger) (uid : Nat) (amt : ℚ) : Ledger :=
  match findBalance st.balances uid with
  | none =>
    appendHistory
      { st with
        balances := st.balances ++
          [{ userId := uid, amount := amt, lastUpdatedAt := st.clock }],
        clock := st.clock + 1 }
      uid amt amt
  | some b =>
    appendHistory
      { st with
        balances := setBalanceAmount st.balances uid (b.amount + amt) st.clock,
        clock := st.clock + 1 }
      uid (b.amount + amt) amt

theorem updateBalanceInTx_cases (st : Ledger) (uid : Nat) (amt : ℚ) :
    (balAmount st uid + amt < 0 ∧
      updateBalanceInTx st uid amt = Except.error "insufficient balance") ∨
    (0 ≤ balAmount st uid + amt ∧
      updateBalanceInTx st uid amt = Except.ok (ubitPost st uid amt)) := by
  cases hfb : findBalance st.balances uid with
  | none =>
    by_cases hlt : amt < 0
    · refine Or.inl ⟨by simpa [balAmount, hfb] using hlt, ?_⟩
      simp [updateBalanceInTx, hfb, hlt]
    · refine Or.inr ⟨by simpa [balAmount, hfb] using le_of_not_lt hlt, ?_⟩
      simp [updateBalanceInTx, ubitPost, hfb, hlt]
  | some b =>
    have hba : balAmount st uid = b.amount := by simp [balAmount, hfb]
    by_cases hlt : b.amount + amt < 0
    · refine Or.inl ⟨by rw [hba]; exact hlt, ?_⟩
      simp [updateBalanceInTx, hfb, hlt]
    · refine Or.inr ⟨by rw [hba]; exact le_of_not_lt hlt, ?_⟩
      simp [updateBalanceInTx, ubitPost, hfb, hlt]

theorem updateBalanceInTx_eq_error {st : Ledger} {uid : Nat} {amt : ℚ}
    (h : balAmount st uid + amt < 0) :
    updateBalanceInTx st uid amt = Except.error "insufficient balance" := by
  rcases updateBalanceInTx_cases st uid amt with ⟨_, he⟩ | ⟨hge, _⟩
  · exact he
  · exact absurd h (not_lt.mpr hge)

theorem updateBalanceInTx_eq_ok {st : Ledger} {uid : Nat} {amt : ℚ}
    (h : 0 ≤ balAmount st uid + amt) :
    updateBalanceInTx st uid amt = Except.ok (ubitPost st uid amt) := by
  rcases updateBalanceInTx_cases st uid amt with ⟨hlt, _⟩ | ⟨_, he⟩
  · exact absurd hlt (not_lt.mpr h)
  · exact he

theorem updateBalanceInTx_ok_elim {st st' : Ledger} {uid : Nat} {amt : ℚ}
    (h : updateBalanceInTx st uid amt = Except.ok st') :
    0 ≤ balAmount st uid + amt ∧ st' = ubitPost st uid amt := by
  rcases updateBalanceInTx_cases st uid amt with ⟨_, he⟩ | ⟨hge, he⟩
  · rw [he] at h
    exact absurd h (by simp)
  · rw [he] at h
    injection h with h
    exact ⟨hge, h.symm⟩

theorem ubitPost_transactions (st : Ledger) (uid : Nat) (amt : ℚ) :
    (ubitPost st uid amt).transactions = st.transactions := by
  unfold ubitPost
  cases hfb : findBalance st.balances uid <;> rfl

theorem ubitPost_nextTransactionId (st : Ledger) (uid : Nat) (amt : ℚ) :
    (ubitPost st uid amt).nextTransactionId = st.nextTransactionId := by
  unfold ubitPost
  cases hfb : findBalance st.balances uid <;> rfl

theorem ubitPost_history (st : Ledger) (uid : Nat) (amt : ℚ) :
    (ubitPost st uid amt).history = st.history ++
      [{ id := st.nextHistoryId, userId := uid,
         balance := balAmount st uid + amt, changeAmount := amt,
         transactionId := none, createdAt := st.clock + 1 }] := by
  unfold ubitPost balAmount
  cases hfb : findBalance st.balances uid with
  | none => simp [appendHistory]
  | some b => simp [appendHistory]

theorem ubitPost_balAmount_self (st : Ledger) (uid : Nat) (amt : ℚ) :
    balAmount (ubitPost st uid amt) uid = balAmount st uid + amt := by
  unfold ubitPost
  cases hfb : findBalance st.balances uid with
  | none =>
    conv_rhs => rw [balAmount, hfb]
    rw [balAmount]
    simp only [appendHistory]
    rw [findBalance_append_none hfb, if_pos rfl]
    simp
  | some b =>
    conv_rhs => rw [balAmount, hfb]
    rw [balAmount]
    simp only [appendHistory]
    rw [findBalance_setBalanceAmount_self hfb]

theorem ubitPost_findBalance_other (st : Ledger) {uid v : Nat} (amt : ℚ)
    (hne : v ≠ uid) :
    findBalance (ubitPost st uid amt).balances v = findBalance st.balances v := by
  unfold ubitPost
  cases hfb : findBalance st.balances uid with
  | none =>
    simp only [appendHistory]
    exact findBalance_append_other (Ne.symm hne)
  | some b =>
    simp only [appendHistory]
    exact findBalance_setBalanceAmount_other hne _ _

theorem ubitPost_balAmount_other (st : Ledger) {uid v : Nat} (amt : ℚ)
    (hne : v ≠ uid) :
    balAmount (ubitPost st uid amt) v = balAmount st v := by
  rw [balAmount, balAmount, ubitPost_findBalance_other st amt hne]

theorem ubitPost_nonneg {st : Ledger} {uid : Nat} {amt : ℚ}
    (hge : 0 ≤ balAmount st uid + amt) (hn : allBalancesNonneg st) :
    allBalancesNonneg (ubitPost st uid amt) := by
  unfold ubitPost
  rw [balAmount] at hge
  cases hfb : findBalance st.balances uid with
  | none =>
    rw [hfb] at hge
    intro b hb
    simp only [appendHistory, List.mem_append, List.mem_singleton] at hb
    rcases hb with hb | rfl
    · exact hn b hb
    · simpa using hge
  | some b0 =>
    rw [hfb] at hge
    intro b hb
    simp only [appendHistory] at hb
    exact setBalanceAmount_nonneg hn hge b hb

theorem ubitPost_unlinked {st : Ledger} {uid : Nat} {amt : ℚ}
    (hu : historyUnlinked st) : historyUnlinked (ubitPost st uid amt) := by
  intro e he
  rw [ubitPost_history] at he
  simp only [List.mem_append, List.mem_singleton] at he
  rcases he with he | rfl
  · exact hu e he
  · rfl

/-! ### `GetBalance` lemmas -/

theorem GetBalance_amount (st : Ledger) (uid : Nat) :
    (GetBalance st uid).1.amount = balAmount st uid := by
  unfold GetBalance balAmount
  cases hfb : findBalance st.balances uid <;> rfl

theorem GetBalance_balAmount (st : Ledger) (uid v : Nat) :
    balAmount (GetBalance st uid).2 v = balAmount st v := by
  cases hfb : findBalance st.balances uid with
  | some b => simp [GetBalance, hfb]
  | none =>
    by_cases hv : uid = v
    · subst hv
      simp only [GetBalance, hfb, balAmount]
      rw [findBalance_append_none hfb, if_pos rfl]
    · simp only [GetBalance, hfb, balAmount]
      rw [findBalance_append_other (by exact hv)]

theorem GetBalance_history (st : Ledger) (uid : Nat) :
    (GetBalance st uid).2.history = st.history := by
  unfold GetBalance
  cases hfb : findBalance st.balances uid <;> rfl

theorem GetBalance_transactions (st : Ledger) (uid : Nat) :
    (GetBalance st uid).2.transactions = st.transactions := by
  unfold GetBalance
  cases hfb : findBalance st.balances uid <;> rfl

theorem GetBalance_nextTransactionId (st : Ledger) (uid : Nat) :
    (GetBalance st uid).2.nextTransactionId = st.nextTransactionId := by
  unfold GetBalance
  cases hfb : findBalance st.balances uid <;> rfl

theorem GetBalance_nonneg {st : Ledger} (uid : Nat)
    (hn : allBalancesNonneg st) : allBalancesNonneg (GetBalance st uid).2 := by
  unfold GetBalance
  cases hfb : findBalance st.balances uid with
  | some b => exact hn
  | none =>
    intro b hb
    simp only [List.mem_append, List.mem_singleton] at hb
    rcases hb with hb | rfl
    · exact hn b hb
    · exact le_refl 0

theorem GetBalance_row_exists (st : Ledger) (uid : Nat) :
    ∃ b, findBalance (GetBalance st uid).2.balances uid = some b ∧
      b.amount = balAmount st uid := by
  unfold GetBalance
  cases hfb : findBalance st.balances uid with
  | some b =>
    refine ⟨b, hfb, ?_⟩
    rw [balAmount, hfb]
  | none =>
    refine ⟨{ userId := uid, amount := 0, lastUpdatedAt := st.clock },
      ?_, by rw [balAmount, hfb]⟩
    simp only []
    rw [findBalance_append_none hfb, if_pos rfl]

/-! ### Transaction-record lemmas -/

theorem setTransactionStatus_balances (st : Ledger) (i : Nat)
    (s : TransactionStatus) : (setTransactionStatus st i s).balances =
      st.balances := rfl

theorem setTransactionStatus_history (st : Ledger) (i : Nat)
    (s : TransactionStatus) : (setTransactionStatus st i s).history =
      st.history := rfl

theorem map_setStatus_of_fresh {ts : List Transaction} {n : Nat}
    (h : ∀ t ∈ ts, t.id < n) (s : TransactionStatus) :
    ts.map (fun t => if t.id == n then { t with status := s } else t) = ts := by
  induction ts with
  | nil => rfl
  | cons hd tl ih =>
    rw [List.map_cons]
    have hhd : (hd.id == n) = false := by
      simp only [beq_eq_false_iff_ne, ne_eq]
      exact Nat.ne_of_lt (h hd (by simp))
    rw [hhd]
    simp only [Bool.false_eq_true, if_false]
    rw [ih (fun t ht => h t (by simp [ht]))]

theorem find?_tx_eq_none_of_fresh {ts : List Transaction} {n : Nat}
    (h : ∀ t ∈ ts, t.id < n) :
    ts.find? (fun t => t.id == n) = none := by
  rw [List.find?_eq_none]
  intro t ht
  simp only [beq_eq_false_iff_ne, ne_eq, Bool.not_eq_true, beq_eq_false_iff_ne]
  exact Nat.ne_of_lt (h t ht)

/-! ### Non-negativity preservation (data-model invariant `amount ≥ 0`) -/

theorem allBalancesNonneg_setTransactionStatus {st : Ledger} {i : Nat}
    {s : TransactionStatus} :
    allBalancesNonneg (setTransactionStatus st i s) ↔ allBalancesNonneg st :=
  Iff.rfl

theorem Credit_state_nonneg (st : Ledger) (req : CreditRequest)
    (hn : allBalancesNonneg st) : allBalancesNonneg (Credit st req).state := by
  by_cases hval : req.amount ≤ 0
  · simp only [Credit, if_pos hval, OpResult.state]
    exact hn
  · rcases updateBalanceInTx_cases
        (insertTransaction st none (some req.userId) req.amount
          TransactionType.credit TransactionStatus.pending).2
        req.userId req.amount with ⟨hlt, he⟩ | ⟨hge, he⟩
    · simp only [Credit, if_neg hval, he, OpResult.state]
      exact hn
    · simp only [Credit, if_neg hval, he]
      split
      · simp only [OpResult.state]
        exact allBalancesNonneg_setTransactionStatus.mpr (ubitPost_nonneg hge hn)
      · simp only [OpResult.state]
        exact allBalancesNonneg_setTransactionStatus.mpr (ubitPost_nonneg hge hn)

theorem Debit_state_nonneg (st : Ledger) (req : DebitRequest)
    (hn : allBalancesNonneg st) : allBalancesNonneg (Debit st req).state := by
  by_cases hval : req.amount ≤ 0
  · simp only [Debit, if_pos hval, OpResult.state]
    exact hn
  · have hn0 : allBalancesNonneg (GetBalance st req.userId).2 :=
      GetBalance_nonneg req.userId hn
    by_cases hpre : (GetBalance st req.userId).1.amount < req.amount
    · simp only [Debit, if_neg hval, if_pos hpre, OpResult.state]
      exact hn0
    · rcases updateBalanceInTx_cases
          (insertTransaction (GetBalance st req.userId).2 (some req.userId) none
            req.amount TransactionType.debit TransactionStatus.pending).2
          req.userId (-req.amount) with ⟨hlt, he⟩ | ⟨hge, he⟩
      · simp only [Debit, if_neg hval, if_neg hpre, he, OpResult.state]
        exact hn0
      · simp only [Debit, if_neg hval, if_neg hpre, he]
        split
        · simp only [OpResult.state]
          exact allBalancesNonneg_setTransactionStatus.mpr (ubitPost_nonneg hge hn0)
        · simp only [OpResult.state]
          exact allBalancesNonneg_setTransactionStatus.mpr (ubitPost_nonneg hge hn0)

theorem Transfer_state_nonneg (st : Ledger) (req : TransferRequest)
    (hn : allBalancesNonneg st) : allBalancesNonneg (Transfer st req).state := by
  by_cases hval : req.amount ≤ 0
  · simp only [Transfer, if_pos hval, OpResult.state]
    exact hn
  · by_cases hsame : (req.fromUserId == req.toUserId) = true
    · simp only [Transfer, if_neg hval, if_pos hsame, OpResult.state]
      exact hn
    · have hn0 : allBalancesNonneg (GetBalance st req.fromUserId).2 :=
        GetBalance_nonneg req.fromUserId hn
      by_cases hpre : (GetBalance st req.fromUserId).1.amount < req.amount
      · simp only [Transfer, if_neg hval, if_neg hsame, if_pos hpre,
          OpResult.state]
        exact hn0
      · rcases updateBalanceInTx_cases
            (insertTransaction (GetBalance st req.fromUserId).2
              (some req.fromUserId) (some req.toUserId) req.amount
              TransactionType.transfer TransactionStatus.pending).2
            req.fromUserId (-req.amount) with ⟨hltA, heA⟩ | ⟨hgeA, heA⟩
        · simp only [Transfer, if_neg hval, if_neg hsame, if_neg hpre, heA,
            OpResult.state]
          exact hn0
        · have hnA := ubitPost_nonneg hgeA hn0
          rcases updateBalanceInTx_cases
              (ubitPost (insertTransaction (GetBalance st req.fromUserId).2
                (some req.fromUserId) (some req.toUserId) req.amount
                TransactionType.transfer TransactionStatus.pending).2
                req.fromUserId (-req.amount))
              req.toUserId req.amount with ⟨hltB, heB⟩ | ⟨hgeB, heB⟩
          · simp only [Transfer, if_neg hval, if_neg hsame, if_neg hpre, heA,
              heB, OpResult.state]
            exact hn0
          · simp only [Transfer, if_neg hval, if_neg hsame, if_neg hpre, heA,
              heB]
            split
            · simp only [OpResult.state]
              exact allBalancesNonneg_setTransactionStatus.mpr
                (ubitPost_nonneg hgeB hnA)
            · simp only [OpResult.state]
              exact allBalancesNonneg_setTransactionStatus.mpr
                (ubitPost_nonneg hgeB hnA)

theorem rollbackDeltas_nonneg {st st' : Ledger} {t : Transaction}
    (h : rollbackDeltas st t = Except.ok st')
    (hn : allBalancesNonneg st) : allBalancesNonneg st' := by
  unfold rollbackDeltas at h
  cases hty : t.ty with
  | credit =>
    rw [hty] at h
    cases hto : t.toUserId with
    | none =>
      rw [hto] at h
      injection h with h
      exact h ▸ hn
    | some toId =>
      rw [hto] at h
      rcases updateBalanceInTx_cases st toId (-t.amount) with ⟨_, he⟩ | ⟨hge, he⟩
      · simp only [he] at h
        exact absurd h (by simp)
      · simp only [he] at h
        injection h with h
        exact h ▸ ubitPost_nonneg hge hn
  | debit =>
    rw [hty] at h
    cases hfrom : t.fromUserId with
    | none =>
      rw [hfrom] at h
      injection h with h
      exact h ▸ hn
    | some fromId =>
      rw [hfrom] at h
      rcases updateBalanceInTx_cases st fromId t.amount with ⟨_, he⟩ | ⟨hge, he⟩
      · simp only [he] at h
        exact absurd h (by simp)
      · simp only [he] at h
        injection h with h
        exact h ▸ ubitPost_nonneg hge hn
  | transfer =>
    rw [hty] at h
    cases hfrom : t.fromUserId with
    | none =>
      rw [hfrom] at h
      cases hto : t.toUserId with
      | none =>
        rw [hto] at h
        injection h with h
        exact h ▸ hn
      | some toId =>
        rw [hto] at h
        injection h with h
        exact h ▸ hn
    | some fromId =>
      rw [hfrom] at h
      cases hto : t.toUserId with
      | none =>
        rw [hto] at h
        injection h with h
        exact h ▸ hn
      | some toId =>
        rw [hto] at h
        rcases updateBalanceInTx_cases st fromId t.amount with ⟨_, heA⟩ | ⟨hgeA, heA⟩
        · simp only [heA] at h
          exact absurd h (by simp)
        · simp only [heA] at h
          have hnA := ubitPost_nonneg hgeA hn
          rcases updateBalanceInTx_cases (ubitPost st fromId t.amount) toId
              (-t.amount) with ⟨_, heB⟩ | ⟨hgeB, heB⟩
          · simp only [heB] at h
            exact absurd h (by simp)
          · simp only [heB] at h
            injection h with h
            exact h ▸ ubitPost_nonneg hgeB hnA

theorem RollbackTransaction_state_nonneg (st : Ledger) (i : Nat)
    (hn : allBalancesNonneg st) :
    allBalancesNonneg (RollbackTransaction st i).state := by
  cases hgt : GetTransactionByID st i with
  | error e =>
    simp only [RollbackTransaction, hgt, OpResult.state]
    exact hn
  | ok t =>
    by_cases hrb : t.status = TransactionStatus.rolled_back
    · simp only [RollbackTransaction, hgt, if_pos hrb, OpResult.state]
      exact hn
    · by_cases hcomp : t.status ≠ TransactionStatus.completed
      · simp only [RollbackTransaction, hgt, if_neg hrb, if_pos hcomp,
          OpResult.state]
        exact hn
      · cases hrd : rollbackDeltas st t with
        | error e =>
          simp only [RollbackTransaction, hgt, if_neg hrb, if_neg hcomp, hrd,
            OpResult.state]
          exact hn
        | ok st1 =>
          simp only [RollbackTransaction, hgt, if_neg hrb, if_neg hcomp, hrd,
            OpResult.state]
          exact allBalancesNonneg_setTransactionStatus.mpr
            (rollbackDeltas_nonneg hrd hn)

theorem UpdateBalance_state_nonneg (st : Ledger) (uid : Nat) (amt : ℚ)
    (hn : allBalancesNonneg st) :
    allBalancesNonneg (UpdateBalance st uid amt).state := by
  rcases updateBalanceInTx_cases st uid amt with ⟨_, he⟩ | ⟨hge, he⟩
  · simp only [UpdateBalance, he, OpResult.state]
    exact hn
  · simp only [UpdateBalance, he, OpResult.state]
    exact ubitPost_nonneg hge hn

/-! ### Claim C1 -/

/-- A concrete empty store used by the witnesses. -/
def ledgerW : Ledger :=
  { balances := [], history := [], transactions := [],
    nextTransactionId := 1, nextHistoryId := 1, clock := 0 }

/-- C1: for every account and every sequence of core operations (Credit,
Debit, Transfer, RollbackTransaction, UpdateBalance), the persisted balance
amount stays `≥ 0`: a mutation that would make `current + delta` negative is
rejected (`updateBalanceInTx` returns `"insufficient balance"` before
persisting), and from a state where all balances are non-negative every
operation leads to a state where all balances are non-negative. -/
theorem balances_nonneg_invariant :
    (∀ (st : Ledger) (op : CoreOp), allBalancesNonneg st →
      allBalancesNonneg (applyOp st op)) ∧
    (∀ (st : Ledger) (uid : Nat) (amt : ℚ), balAmount st uid + amt < 0 →
      updateBalanceInTx st uid amt = Except.error "insufficient balance") := by
  constructor
  · intro st op hn
    cases op with
    | credit req => exact Credit_state_nonneg st req hn
    | debit req => exact Debit_state_nonneg st req hn
    | transfer req => exact Transfer_state_nonneg st req hn
    | rollback i => exact RollbackTransaction_state_nonneg st i hn
    | updateBalance uid amt => exact UpdateBalance_state_nonneg st uid amt hn
  · intro st uid amt h
    exact updateBalanceInTx_eq_error h

theorem balances_nonneg_invariant_witness :
    (allBalancesNonneg ledgerW ∧
      allBalancesNonneg (applyOp ledgerW (CoreOp.credit ⟨1, 5⟩))) ∧
    (balAmount ledgerW 1 + (-1) < 0 ∧
      updateBalanceInTx ledgerW 1 (-1) =
        Except.error "insufficient balance") := by
  have h1 : allBalancesNonneg ledgerW := by
    intro b hb
    simp [ledgerW] at hb
  have h2 : balAmount ledgerW 1 + (-1) < 0 := by
    simp [balAmount, findBalance, ledgerW]
  exact ⟨⟨h1, balances_nonneg_invariant.1 ledgerW (CoreOp.credit ⟨1, 5⟩) h1⟩,
    ⟨h2, balances_nonneg_invariant.2 ledgerW 1 (-1) h2⟩⟩

/-! ### History rows carry no transaction id (claim C10) -/

theorem historyUnlinked_setTransactionStatus {st : Ledger} {i : Nat}
    {s : TransactionStatus} :
    historyUnlinked (setTransactionStatus st i s) ↔ historyUnlinked st :=
  Iff.rfl

theorem historyUnlinked_GetBalance {st : Ledger} (uid : Nat)
    (hu : historyUnlinked st) : historyUnlinked (GetBalance st uid).2 := by
  intro e he
  rw [GetBalance_history] at he
  exact hu e he

theorem Credit_state_unlinked (st : Ledger) (req : CreditRequest)
    (hu : historyUnlinked st) : historyUnlinked (Credit st req).state := by
  by_cases hval : req.amount ≤ 0
  · simp only [Credit, if_pos hval, OpResult.state]
    exact hu
  · rcases updateBalanceInTx_cases
        (insertTransaction st none (some req.userId) req.amount
          TransactionType.credit TransactionStatus.pending).2
        req.userId req.amount with ⟨hlt, he⟩ | ⟨hge, he⟩
    · simp only [Credit, if_neg hval, he, OpResult.state]
      exact hu
    · simp only [Credit, if_neg hval, he]
      split
      · simp only [OpResult.state]
        exact historyUnlinked_setTransactionStatus.mpr (ubitPost_unlinked hu)
      · simp only [OpResult.state]
        exact historyUnlinked_setTransactionStatus.mpr (ubitPost_unlinked hu)

theorem Debit_state_unlinked (st : Ledger) (req : DebitRequest)
    (hu : historyUnlinked st) : historyUnlinked (Debit st req).state := by
  by_cases hval : req.amount ≤ 0
  · simp only [Debit, if_pos hval, OpResult.state]
    exact hu
  · have hu0 : historyUnlinked (GetBalance st req.userId).2 :=
      historyUnlinked_GetBalance req.userId hu
    by_cases hpre : (GetBalance st req.userId).1.amount < req.amount
    · simp only [Debit, if_neg hval, if_pos hpre, OpResult.state]
      exact hu0
    · rcases updateBalanceInTx_cases
          (insertTransaction (GetBalance st req.userId).2 (some req.userId) none
            req.amount TransactionType.debit TransactionStatus.pending).2
          req.userId (-req.amount) with ⟨hlt, he⟩ | ⟨hge, he⟩
      · simp only [Debit, if_neg hval, if_neg hpre, he, OpResult.state]
        exact hu0
      · simp only [Debit, if_neg hval, if_neg hpre, he]
        split
        · simp only [OpResult.state]
          exact historyUnlinked_setTransactionStatus.mpr (ubitPost_unlinked hu0)
        · simp only [OpResult.state]
          exact historyUnlinked_setTransactionStatus.mpr (ubitPost_unlinked hu0)

theorem Transfer_state_unlinked (st : Ledger) (req : TransferRequest)
    (hu : historyUnlinked st) : historyUnlinked (Transfer st req).state := by
  by_cases hval : req.amount ≤ 0
  · simp only [Transfer, if_pos hval, OpResult.state]
    exact hu
  · by_cases hsame : (req.fromUserId == req.toUserId) = true
    · simp only [Transfer, if_neg hval, if_pos hsame, OpResult.state]
      exact hu
    · have hu0 : historyUnlinked (GetBalance st req.fromUserId).2 :=
        historyUnlinked_GetBalance req.fromUserId hu
      by_cases hpre : (GetBalance st req.fromUserId).1.amount < req.amount
      · simp only [Transfer, if_neg hval, if_neg hsame, if_pos hpre,
          OpResult.state]
        exact hu0
      · rcases updateBalanceInTx_cases
            (insertTransaction (GetBalance st req.fromUserId).2
              (some req.fromUserId) (some req.toUserId) req.amount
              TransactionType.transfer TransactionStatus.pending).2
            req.fromUserId (-req.amount) with ⟨hltA, heA⟩ | ⟨hgeA, heA⟩
        · simp only [Transfer, if_neg hval, if_neg hsame, if_neg hpre, heA,
            OpResult.state]
          exact hu0
        · have huA := @ubitPost_unlinked (insertTransaction
            (GetBalance st req.fromUserId).2 (some req.fromUserId)
            (some req.toUserId) req.amount TransactionType.transfer
            TransactionStatus.pending).2 req.fromUserId
            (-req.amount) hu0
          rcases updateBalanceInTx_cases
              (ubitPost (insertTransaction (GetBalance st req.fromUserId).2
                (some req.fromUserId) (some req.toUserId) req.amount
                TransactionType.transfer TransactionStatus.pending).2
                req.fromUserId (-req.amount))
              req.toUserId req.amount with ⟨hltB, heB⟩ | ⟨hgeB, heB⟩
          · simp only [Transfer, if_neg hval, if_neg hsame, if_neg hpre, heA,
              heB, OpResult.state]
            exact hu0
          · simp only [Transfer, if_neg hval, if_neg hsame, if_neg hpre, heA,
              heB]
            split
            · simp only [OpResult.state]
              exact historyUnlinked_setTransactionStatus.mpr
                (ubitPost_unlinked huA)
            · simp only [OpResult.state]
              exact historyUnlinked_setTransactionStatus.mpr
                (ubitPost_unlinked huA)

theorem rollbackDeltas_unlinked {st st' : Ledger} {t : Transaction}
    (h : rollbackDeltas st t = Except.ok st')
    (hu : historyUnlinked st) : historyUnlinked st' := by
  unfold rollbackDeltas at h
  cases hty : t.ty with
  | credit =>
    rw [hty] at h
    cases hto : t.toUserId with
    | none =>
      rw [hto] at h
      injection h with h
      exact h ▸ hu
    | some toId =>
      rw [hto] at h
      rcases updateBalanceInTx_cases st toId (-t.amount) with ⟨_, he⟩ | ⟨hge, he⟩
      · simp only [he] at h
        exact absurd h (by simp)
      · simp only [he] at h
        injection h with h
        exact h ▸ ubitPost_unlinked hu
  | debit =>
    rw [hty] at h
    cases hfrom : t.fromUserId with
    | none =>
      rw [hfrom] at h
      injection h with h
      exact h ▸ hu
    | some fromId =>
      rw [hfrom] at h
      rcases updateBalanceInTx_cases st fromId t.amount with ⟨_, he⟩ | ⟨hge, he⟩
      · simp only [he] at h
        exact absurd h (by simp)
      · simp only [he] at h
        injection h with h
        exact h ▸ ubitPost_unlinked hu
  | transfer =>
    rw [hty] at h
    cases hfrom : t.fromUserId with
    | none =>
      rw [hfrom] at h
      cases hto : t.toUserId with
      | none =>
        rw [hto] at h
        injection h with h
        exact h ▸ hu
      | some toId =>
        rw [hto] at h
        injection h with h
        exact h ▸ hu
    | some fromId =>
      rw [hfrom] at h
      cases hto : t.toUserId with
      | none =>
        rw [hto] at h
        injection h with h
        exact h ▸ hu
      | some toId =>
        rw [hto] at h
        rcases updateBalanceInTx_cases st fromId t.amount with ⟨_, heA⟩ | ⟨hgeA, heA⟩
        · simp only [heA] at h
          exact absurd h (by simp)
        · simp only [heA] at h
          have huA := @ubitPost_unlinked st fromId t.amount hu
          rcases updateBalanceInTx_cases (ubitPost st fromId t.amount) toId
              (-t.amount) with ⟨_, heB⟩ | ⟨hgeB, heB⟩
          · simp only [heB] at h
            exact absurd h (by simp)
          · simp only [heB] at h
            injection h with h
            exact h ▸ ubitPost_unlinked huA

theorem RollbackTransaction_state_unlinked (st : Ledger) (i : Nat)
    (hu : historyUnlinked st) :
    historyUnlinked (RollbackTransaction st i).state := by
  cases hgt : GetTransactionByID st i with
  | error e =>
    simp only [RollbackTransaction, hgt, OpResult.state]
    exact hu
  | ok t =>
    by_cases hrb : t.status = TransactionStatus.rolled_back
    · simp only [RollbackTransaction, hgt, if_pos hrb, OpResult.state]
      exact hu
    · by_cases hcomp : t.status ≠ TransactionStatus.completed
      · simp only [RollbackTransaction, hgt, if_neg hrb, if_pos hcomp,
          OpResult.state]
        exact hu
      · cases hrd : rollbackDeltas st t with
        | error e =>
          simp only [RollbackTransaction, hgt, if_neg hrb, if_neg hcomp, hrd,
            OpResult.state]
          exact hu
        | ok st1 =>
          simp only [RollbackTransaction, hgt, if_neg hrb, if_neg hcomp, hrd,
            OpResult.state]
          exact historyUnlinked_setTransactionStatus.mpr
            (rollbackDeltas_unlinked hrd hu)

theorem UpdateBalance_state_unlinked (st : Ledger) (uid : Nat) (amt : ℚ)
    (hu : historyUnlinked st) :
    historyUnlinked (UpdateBalance st uid amt).state := by
  rcases updateBalanceInTx_cases st uid amt with ⟨_, he⟩ | ⟨hge, he⟩
  · simp only [UpdateBalance, he, OpResult.state]
    exact hu
  · simp only [UpdateBalance, he, OpResult.state]
    exact ubitPost_unlinked hu

/-- C10: every history row written by a core operation has a `NULL`
`transaction_id`: the single history insert of `updateBalanceInTx` passes
`NULL` explicitly, so the appended row carries `transactionId = none`, and
from any state whose history rows are all unlinked, every core operation
(Credit, Debit, Transfer, RollbackTransaction, UpdateBalance) leads to a
state whose history rows are all unlinked. -/
theorem history_rows_never_linked :
    (∀ (st : Ledger) (uid : Nat) (amt : ℚ),
      (ubitPost st uid amt).history = st.history ++
        [{ id := st.nextHistoryId, userId := uid,
           balance := balAmount st uid + amt, changeAmount := amt,
           transactionId := none, createdAt := st.clock + 1 }]) ∧
    (∀ (st : Ledger) (op : CoreOp), historyUnlinked st →
      historyUnlinked (applyOp st op)) := by
  constructor
  · intro st uid amt
    exact ubitPost_history st uid amt
  · intro st op hu
    cases op with
    | credit req => exact Credit_state_unlinked st req hu
    | debit req => exact Debit_state_unlinked st req hu
    | transfer req => exact Transfer_state_unlinked st req hu
    | rollback i => exact RollbackTransaction_state_unlinked st i hu
    | updateBalance uid amt => exact UpdateBalance_state_unlinked st uid amt hu

theorem history_rows_never_linked_witness :
    (ubitPost ledgerW 1 5).history = ledgerW.history ++
      [{ id := ledgerW.nextHistoryId, userId := 1,
         balance := balAmount ledgerW 1 + 5, changeAmount := 5,
         transactionId := none, createdAt := ledgerW.clock + 1 }] ∧
    (historyUnlinked ledgerW ∧
      historyUnlinked (applyOp ledgerW (CoreOp.transfer ⟨1, 2, 3⟩))) := by
  have hu : historyUnlinked ledgerW := by
    intro e he
    simp [ledgerW] at he
  exact ⟨history_rows_never_linked.1 ledgerW 1 5,
    ⟨hu, history_rows_never_linked.2 ledgerW (CoreOp.transfer ⟨1, 2, 3⟩) hu⟩⟩

/-! ### Reconciliation (claim C7) -/

theorem CalculateBalanceFromHistory_GetBalance (st : Ledger) (uid v : Nat) :
    CalculateBalanceFromHistory (GetBalance st uid).2 v =
      CalculateBalanceFromHistory st v := by
  unfold CalculateBalanceFromHistory
  rw [GetBalance_history]

/-- C7: `ReconcileBalance` logs the "Balance discrepancy detected" warning
exactly when the stored balance differs from the sum of the history
`change_amount`s, logs nothing when they agree, and in both cases returns
success (the modelled store cannot fail) leaving every balance amount and
the history unchanged (when the account has no balance row, `GetBalance`
initialises a zero row, which leaves the read amount `0` unchanged). -/
theorem reconcile_detects_drift (st : Ledger) (uid : Nat) :
    ((ReconcileBalance st uid).2 = true ↔
      balAmount st uid ≠ CalculateBalanceFromHistory st uid) ∧
    (∀ v, balAmount (ReconcileBalance st uid).1 v = balAmount st v) ∧
    (ReconcileBalance st uid).1.history = st.history := by
  refine ⟨?_, ?_, ?_⟩
  · simp only [ReconcileBalance]
    rw [CalculateBalanceFromHistory_GetBalance, GetBalance_amount]
    by_cases h : balAmount st uid = CalculateBalanceFromHistory st uid
    · rw [if_pos h]
      simp [h]
    · rw [if_neg h]
      simp [h]
  · intro v
    simp only [ReconcileBalance]
    exact GetBalance_balAmount st uid v
  · simp only [ReconcileBalance]
    exact GetBalance_history st uid

/-! ### Point-in-time balance (claim C8) -/

theorem latestHistoryAtOrBefore_mem {hs : List BalanceHistory} {uid t : Nat}
    {b : BalanceHistory} (h : latestHistoryAtOrBefore hs uid t = some b) :
    b ∈ hs ∧ b.userId = uid ∧ b.createdAt ≤ t := by
  induction hs generalizing b with
  | nil => exact absurd h (by simp [latestHistoryAtOrBefore])
  | cons hd tl ih =>
    cases hrec : latestHistoryAtOrBefore tl uid t with
    | none =>
      simp only [latestHistoryAtOrBefore, hrec] at h
      by_cases hcond : (hd.userId == uid && decide (hd.createdAt ≤ t)) = true
      · rw [if_pos hcond] at h
        injection h with h
        subst h
        simp only [Bool.and_eq_true, beq_iff_eq, decide_eq_true_eq] at hcond
        exact ⟨by simp, hcond.1, hcond.2⟩
      · rw [if_neg hcond] at h
        exact absurd h (by simp)
    | some b0 =>
      simp only [latestHistoryAtOrBefore, hrec] at h
      obtain ⟨hb0mem, hb0u, hb0t⟩ := ih hrec
      by_cases hcond : ((hd.userId == uid && decide (hd.createdAt ≤ t)) &&
          decide (b0.createdAt < hd.createdAt)) = true
      · rw [if_pos hcond] at h
        injection h with h
        subst h
        simp only [Bool.and_eq_true, beq_iff_eq, decide_eq_true_eq] at hcond
        exact ⟨by simp, hcond.1.1, hcond.1.2⟩
      · rw [if_neg hcond] at h
        injection h with h
        subst h
        exact ⟨by simp [hb0mem], hb0u, hb0t⟩

theorem latestHistoryAtOrBefore_none {hs : List BalanceHistory} {uid t : Nat}
    (h : ∀ e ∈ hs, e.userId = uid → t < e.createdAt) :
    latestHistoryAtOrBefore hs uid t = none := by
  induction hs with
  | nil => rfl
  | cons hd tl ih =>
    have hrec : latestHistoryAtOrBefore tl uid t = none :=
      ih (fun e he hu => h e (by simp [he]) hu)
    simp only [latestHistoryAtOrBefore, hrec]
    have hcond : (hd.userId == uid && decide (hd.createdAt ≤ t)) = false := by
      by_cases hu : hd.userId = uid
      · simp [hu, Nat.not_le.mpr (h hd (by simp) hu)]
      · simp [hu]
    rw [if_neg (by simp [hcond])]

theorem latestHistoryAtOrBefore_max {hs : List BalanceHistory} {uid t : Nat}
    {e : BalanceHistory} (hmem : e ∈ hs)
    (hu : e.userId = uid) (hle : e.createdAt ≤ t)
    (hmax : ∀ x ∈ hs, x.userId = uid → x.createdAt ≤ t → x ≠ e →
      x.createdAt < e.createdAt) :
    latestHistoryAtOrBefore hs uid t = some e := by
  induction hs with
  | nil => cases hmem
  | cons hd tl ih =>
    have hconds : (e.userId == uid && decide (e.createdAt ≤ t)) = true := by
      simp [hu, hle]
    by_cases htl : e ∈ tl
    · have hrec : latestHistoryAtOrBefore tl uid t = some e :=
        ih htl (fun x hx h1 h2 h3 => hmax x (by simp [hx]) h1 h2 h3)
      simp only [latestHistoryAtOrBefore, hrec]
      rw [if_neg]
      intro hcond
      simp only [Bool.and_eq_true, beq_iff_eq, decide_eq_true_eq] at hcond
      by_cases hhd : hd = e
      · exact absurd (hhd ▸ hcond.2) (lt_irrefl _)
      · exact absurd hcond.2
          (not_lt.mpr (le_of_lt (hmax hd (by simp) hcond.1.1 hcond.1.2 hhd)))
    · have hhd : e = hd := by
        rcases List.mem_cons.mp hmem with h | h
        · exact h
        · exact absurd h htl
      subst hhd
      cases hrec : latestHistoryAtOrBefore tl uid t with
      | none =>
        simp only [latestHistoryAtOrBefore, hrec]
        rw [if_pos hconds]
      | some b =>
        obtain ⟨hbmem, hbu, hbt⟩ := latestHistoryAtOrBefore_mem hrec
        have hbne : b ≠ e := fun hbe => htl (hbe ▸ hbmem)
        have hblt : b.createdAt < e.createdAt :=
          hmax b (by simp [hbmem]) hbu hbt hbne
        simp only [latestHistoryAtOrBefore, hrec]
        rw [if_pos (by simp only [Bool.and_eq_true, decide_eq_true_eq]
          at hconds ⊢; exact ⟨hconds, hblt⟩)]

/-- C8: `GetBalanceAtTime st uid t` returns the `balance` recorded in the
most recent history entry of the account with `createdAt ≤ t` (the unique
entry maximal among them — committed states have strictly increasing
timestamps), and returns `0` without error when no entry at or before `t`
exists; with entries at times `t1 < t2 < t3` this yields the `t2` balance
for every `t2 ≤ t < t3` and `0` for every `t < t1`. -/
theorem getBalanceAtTime_spec (st : Ledger) (uid t : Nat) :
    ((∀ e ∈ st.history, e.userId = uid → t < e.createdAt) →
      GetBalanceAtTime st uid t = 0) ∧
    (∀ e ∈ st.history, e.userId = uid → e.createdAt ≤ t →
      (∀ x ∈ st.history, x.userId = uid → x.createdAt ≤ t → x ≠ e →
        x.createdAt < e.createdAt) →
      GetBalanceAtTime st uid t = e.balance) := by
  constructor
  · intro h
    unfold GetBalanceAtTime
    rw [latestHistoryAtOrBefore_none h]
  · intro e he hu hle hmax
    unfold GetBalanceAtTime
    rw [latestHistoryAtOrBefore_max he hu hle hmax]

/-- A store with three history rows for account 7 at times 1 < 2 < 3. -/
def ledgerW8 : Ledger :=
  { balances := [{ userId := 7, amount := 5, lastUpdatedAt := 3 }],
    history :=
      [{ id := 1, userId := 7, balance := 10, changeAmount := 10,
         transactionId := none, createdAt := 1 },
       { id := 2, userId := 7, balance := 25, changeAmount := 15,
         transactionId := none, createdAt := 2 },
       { id := 3, userId := 7, balance := 5, changeAmount := -20,
         transactionId := none, createdAt := 3 }],
    transactions := [], nextTransactionId := 1, nextHistoryId := 4,
    clock := 4 }

theorem getBalanceAtTime_spec_witness :
    GetBalanceAtTime ledgerW8 7 0 = 0 ∧ GetBalanceAtTime ledgerW8 7 2 = 25 := by
  constructor
  · refine (getBalanceAtTime_spec ledgerW8 7 0).1 ?_
    intro e he hu
    simp only [ledgerW8, List.mem_cons, List.not_mem_nil, or_false] at he
    rcases he with rfl | rfl | rfl <;> norm_num
  · refine (getBalanceAtTime_spec ledgerW8 7 2).2
      { id := 2, userId := 7, balance := 25, changeAmount := 15,
        transactionId := none, createdAt := 2 }
      (by simp [ledgerW8]) rfl (by norm_num) ?_
    intro x hx h1 h2 h3
    simp only [ledgerW8, List.mem_cons, List.not_mem_nil, or_false] at hx
    rcases hx with rfl | rfl | rfl
    · norm_num
    · exact absurd rfl h3
    · norm_num at h2

/-! ### Advisory pre-check persists a zero row (claim C9) -/

/-- C9: for an account with no persisted balance row, a `Debit` or a
`Transfer` whose positive amount exceeds the zero balance is rejected by the
advisory pre-check with `"insufficient balance"`, yet the pre-check ran
`GetBalance`, which inserted (outside any transaction) a zero balance row
that survives the failure: the operation fails but leaves a state change
behind. -/
theorem precheck_persists_zero_row (st : Ledger) (uid toUid : Nat) (amt : ℚ)
    (h0 : findBalance st.balances uid = none) (hamt : 0 < amt) :
    Debit st { userId := uid, amount := amt } =
      OpResult.err "insufficient balance" (GetBalance st uid).2 ∧
    (uid ≠ toUid →
      Transfer st { fromUserId := uid, toUserId := toUid, amount := amt } =
        OpResult.err "insufficient balance" (GetBalance st uid).2) ∧
    findBalance (GetBalance st uid).2.balances uid =
      some { userId := uid, amount := 0, lastUpdatedAt := st.clock } := by
  have hval : ¬ amt ≤ 0 := not_le.mpr hamt
  have hamount : (GetBalance st uid).1.amount = 0 := by
    rw [GetBalance_amount, balAmount, h0]
  refine ⟨?_, ?_, ?_⟩
  · simp only [Debit, if_neg hval]
    rw [if_pos (by rw [hamount]; exact hamt)]
  · intro hne
    have hsame : ¬ ((uid == toUid) = true) := by simp [hne]
    simp only [Transfer, if_neg hval, if_neg hsame]
    rw [if_pos (by rw [hamount]; exact hamt)]
  · simp only [GetBalance, h0]
    rw [findBalance_append_none h0, if_pos rfl]

theorem precheck_persists_zero_row_witness :
    findBalance ledgerW.balances 1 = none ∧ (0:ℚ) < 5 ∧
    (Debit ledgerW { userId := 1, amount := 5 } =
      OpResult.err "insufficient balance" (GetBalance ledgerW 1).2 ∧
    ((1:Nat) ≠ 2 →
      Transfer ledgerW { fromUserId := 1, toUserId := 2, amount := 5 } =
        OpResult.err "insufficient balance" (GetBalance ledgerW 1).2) ∧
    findBalance (GetBalance ledgerW 1).2.balances 1 =
      some { userId := 1, amount := 0, lastUpdatedAt := ledgerW.clock }) := by
  have h0 : findBalance ledgerW.balances 1 = none := by
    simp [ledgerW, findBalance]
  have hamt : (0:ℚ) < 5 := by norm_num
  exact ⟨h0, hamt, precheck_persists_zero_row ledgerW 1 2 5 h0 hamt⟩

/-! ### In-process guards (claim C6) -/

theorem transfer_guards_counterexample :
    ¬ (1 ∈ guardsAcquired (CoreOp.transfer
        { fromUserId := 1, toUserId := 2, amount := 5 }) ∧
       2 ∈ guardsAcquired (CoreOp.transfer
        { fromUserId := 1, toUserId := 2, amount := 5 })) := by
  intro h
  simp [guardsAcquired] at h

/-- C6 (amended): `Transfer` acquires no per-account in-process guard at
all — none of the orchestrator operations (`Credit`, `Debit`, `Transfer`,
`RollbackTransaction`) calls `BalanceService.getMutex`; only
`UpdateBalance` acquires the guard, for its single account. In particular
no fixed-order two-account guard acquisition exists for transfers. -/
theorem transfer_acquires_no_guards :
    ∀ (req : TransferRequest) (creq : CreditRequest) (dreq : DebitRequest)
      (i uid : Nat) (amt : ℚ),
      guardsAcquired (CoreOp.transfer req) = [] ∧
      guardsAcquired (CoreOp.credit creq) = [] ∧
      guardsAcquired (CoreOp.debit dreq) = [] ∧
      guardsAcquired (CoreOp.rollback i) = [] ∧
      guardsAcquired (CoreOp.updateBalance uid amt) = [uid] := by
  intro req creq dreq i uid amt
  exact ⟨rfl, rfl, rfl, rfl, rfl⟩

/-! ### Insufficient funds (claim C3) -/

/-- C3: when an account's current balance is below the requested (positive)
amount, `Debit` and `Transfer` fail with the `"insufficient balance"` error
and leave every balance amount and the history unchanged (the failure state
is the pre-check state, which at most initialises a zero row); and the
authoritative check is `updateBalanceInTx` computing `new = current + delta`
inside the atomic unit and aborting with the same error whenever `new < 0`,
persisting nothing. -/
theorem insufficient_funds_rejected (st : Ledger) (uid toUid : Nat) (amt : ℚ)
    (hamt : 0 < amt) (hne : uid ≠ toUid) (hlt : balAmount st uid < amt) :
    (Debit st { userId := uid, amount := amt } =
        OpResult.err "insufficient balance" (GetBalance st uid).2 ∧
      Transfer st { fromUserId := uid, toUserId := toUid, amount := amt } =
        OpResult.err "insufficient balance" (GetBalance st uid).2 ∧
      (∀ v, balAmount (GetBalance st uid).2 v = balAmount st v) ∧
      (GetBalance st uid).2.history = st.history) ∧
    (∀ (st2 : Ledger) (u : Nat) (d : ℚ), balAmount st2 u + d < 0 →
      updateBalanceInTx st2 u d = Except.error "insufficient balance") := by
  have hval : ¬ amt ≤ 0 := not_le.mpr hamt
  have hpre : (GetBalance st uid).1.amount < amt := by
    rw [GetBalance_amount]
    exact hlt
  refine ⟨⟨?_, ?_, ?_, ?_⟩, ?_⟩
  · simp only [Debit, if_neg hval]
    rw [if_pos hpre]
  · have hsame : ¬ ((uid == toUid) = true) := by simp [hne]
    simp only [Transfer, if_neg hval, if_neg hsame]
    rw [if_pos hpre]
  · intro v
    exact GetBalance_balAmount st uid v
  · exact GetBalance_history st uid
  · intro st2 u d h
    exact updateBalanceInTx_eq_error h

/-- A store holding a single account 1 with balance 2. -/
def ledgerW3 : Ledger :=
  { balances := [{ userId := 1, amount := 2, lastUpdatedAt := 0 }],
    history := [], transactions := [], nextTransactionId := 1,
    nextHistoryId := 1, clock := 0 }

theorem insufficient_funds_rejected_witness :
    (0:ℚ) < 5 ∧ (1:Nat) ≠ 2 ∧ balAmount ledgerW3 1 < 5 ∧
    ((Debit ledgerW3 { userId := 1, amount := 5 } =
        OpResult.err "insufficient balance" (GetBalance ledgerW3 1).2 ∧
      Transfer ledgerW3 { fromUserId := 1, toUserId := 2, amount := 5 } =
        OpResult.err "insufficient balance" (GetBalance ledgerW3 1).2 ∧
      (∀ v, balAmount (GetBalance ledgerW3 1).2 v = balAmount ledgerW3 v) ∧
      (GetBalance ledgerW3 1).2.history = ledgerW3.history) ∧
    (∀ (st2 : Ledger) (u : Nat) (d : ℚ), balAmount st2 u + d < 0 →
      updateBalanceInTx st2 u d = Except.error "insufficient balance")) := by
  have h1 : (0:ℚ) < 5 := by norm_num
  have h2 : (1:Nat) ≠ 2 := by norm_num
  have h3 : balAmount ledgerW3 1 < 5 := by
    simp [balAmount, findBalance, ledgerW3]
    norm_num
  exact ⟨h1, h2, h3, insufficient_funds_rejected ledgerW3 1 2 5 h1 h2 h3⟩

/-! ### Commit shape of the orchestrator operations -/

theorem insertTransaction_fst (st : Ledger) (f t : Option Nat) (a : ℚ)
    (ty : TransactionType) (s : TransactionStatus) :
    (insertTransaction st f t a ty s).1 = st.nextTransactionId := rfl

theorem insertTransaction_transactions (st : Ledger) (f t : Option Nat)
    (a : ℚ) (ty : TransactionType) (s : TransactionStatus) :
    (insertTransaction st f t a ty s).2.transactions = st.transactions ++
      [{ id := st.nextTransactionId, fromUserId := f, toUserId := t,
         amount := a, ty := ty, status := s, createdAt := st.clock }] := rfl

theorem GetTransactionByID_append_last {pre : List Transaction}
    {st1 : Ledger} {rec : Transaction} {n : Nat}
    (hf : ∀ r ∈ pre, r.id < n) (hrid : rec.id = n)
    (htr : st1.transactions = pre ++ [rec]) :
    GetTransactionByID st1 n = Except.ok rec := by
  unfold GetTransactionByID
  rw [htr, List.find?_append, find?_tx_eq_none_of_fresh hf, Option.none_or]
  rw [List.find?_cons_of_pos _ (by simp [hrid])]

theorem setStatus_append_commit {pre st2 : Ledger} {rec : Transaction}
    {n : Nat} (hf : ∀ r ∈ pre.transactions, r.id < n) (hrid : rec.id = n)
    (htr : st2.transactions = pre.transactions ++ [rec])
    (s : TransactionStatus) :
    (setTransactionStatus st2 n s).transactions =
      pre.transactions ++ [{ rec with status := s }] ∧
    GetTransactionByID (setTransactionStatus st2 n s) n =
      Except.ok { rec with status := s } := by
  have hmap : (setTransactionStatus st2 n s).transactions =
      pre.transactions ++ [{ rec with status := s }] := by
    simp only [setTransactionStatus]
    rw [htr, List.map_append, map_setStatus_of_fresh hf, List.map_singleton]
    rw [if_pos (by simp [hrid])]
  refine ⟨hmap, ?_⟩
  unfold GetTransactionByID
  rw [hmap, List.find?_append, find?_tx_eq_none_of_fresh hf, Option.none_or]
  rw [List.find?_cons_of_pos _ (by simp [hrid])]

theorem setTransactionStatus_nextTransactionId (st : Ledger) (i : Nat)
    (s : TransactionStatus) :
    (setTransactionStatus st i s).nextTransactionId =
      st.nextTransactionId := rfl

theorem Credit_ok_spec {st : Ledger} {req : CreditRequest} {t : Transaction}
    {st' : Ledger} (hf : freshTransactionIds st)
    (h : Credit st req = OpResult.ok t st') :
    0 < req.amount ∧
    0 ≤ balAmount st req.userId + req.amount ∧
    t = { id := st.nextTransactionId, fromUserId := none,
          toUserId := some req.userId, amount := req.amount,
          ty := TransactionType.credit,
          status := TransactionStatus.completed, createdAt := st.clock } ∧
    st'.transactions = st.transactions ++ [t] ∧
    st'.nextTransactionId = st.nextTransactionId + 1 ∧
    balAmount st' req.userId = balAmount st req.userId + req.amount ∧
    (∀ v, v ≠ req.userId → balAmount st' v = balAmount st v) := by
  by_cases hval : req.amount ≤ 0
  · simp only [Credit, if_pos hval] at h
    exact OpResult.noConfusion h
  · rcases updateBalanceInTx_cases
        (insertTransaction st none (some req.userId) req.amount
          TransactionType.credit TransactionStatus.pending).2
        req.userId req.amount with ⟨hlt, he⟩ | ⟨hge, he⟩
    · simp only [Credit, if_neg hval, he] at h
      exact OpResult.noConfusion h
    · have htr : (ubitPost (insertTransaction st none (some req.userId)
          req.amount TransactionType.credit TransactionStatus.pending).2
          req.userId req.amount).transactions =
          st.transactions ++
          [{ id := st.nextTransactionId, fromUserId := none,
             toUserId := some req.userId, amount := req.amount,
             ty := TransactionType.credit,
             status := TransactionStatus.pending, createdAt := st.clock }] := by
        rw [ubitPost_transactions]
        exact insertTransaction_transactions st none (some req.userId)
          req.amount TransactionType.credit TransactionStatus.pending
      have hcommit := setStatus_append_commit hf rfl htr
        TransactionStatus.completed
      simp only [Credit, if_neg hval, he, insertTransaction_fst,
        hcommit.2] at h
      injection h with h1 h2
      subst h1
      subst h2
      refine ⟨not_le.mp hval, hge, rfl, hcommit.1, ?_, ?_, ?_⟩
      · rw [setTransactionStatus_nextTransactionId, ubitPost_nextTransactionId]
        rfl
      · exact ubitPost_balAmount_self _ req.userId req.amount
      · intro v hv
        exact ubitPost_balAmount_other _ req.amount hv

theorem Transfer_ok_spec {st : Ledger} {req : TransferRequest}
    {t : Transaction} {st' : Ledger} (hf : freshTransactionIds st)
    (h : Transfer st req = OpResult.ok t st') :
    0 < req.amount ∧ req.fromUserId ≠ req.toUserId ∧
    t = { id := st.nextTransactionId, fromUserId := some req.fromUserId,
          toUserId := some req.toUserId, amount := req.amount,
          ty := TransactionType.transfer,
          status := TransactionStatus.completed, createdAt := st.clock } ∧
    st'.transactions = st.transactions ++ [t] ∧
    st'.nextTransactionId = st.nextTransactionId + 1 ∧
    balAmount st' req.fromUserId = balAmount st req.fromUserId - req.amount ∧
    balAmount st' req.toUserId = balAmount st req.toUserId + req.amount ∧
    (∀ v, v ≠ req.fromUserId → v ≠ req.toUserId →
      balAmount st' v = balAmount st v) := by
  by_cases hval : req.amount ≤ 0
  · simp only [Transfer, if_pos hval] at h
    exact OpResult.noConfusion h
  · by_cases hsame : (req.fromUserId == req.toUserId) = true
    · simp only [Transfer, if_neg hval, if_pos hsame] at h
      exact OpResult.noConfusion h
    · have hne : req.fromUserId ≠ req.toUserId := by simpa using hsame
      cases hgb : findBalance st.balances req.fromUserId with
      | none =>
        have hpre : (GetBalance st req.fromUserId).1.amount < req.amount := by
          rw [GetBalance_amount, balAmount, hgb]
          exact not_le.mp hval
        simp only [Transfer, if_neg hval, if_neg hsame, if_pos hpre] at h
        exact OpResult.noConfusion h
      | some b =>
        have hg2 : GetBalance st req.fromUserId = (b, st) := by
          simp [GetBalance, hgb]
        simp only [Transfer, if_neg hval, if_neg hsame, hg2] at h
        by_cases hpre : b.amount < req.amount
        · rw [if_pos hpre] at h
          exact OpResult.noConfusion h
        · rw [if_neg hpre] at h
          rcases updateBalanceInTx_cases
              (insertTransaction st (some req.fromUserId) (some req.toUserId)
                req.amount TransactionType.transfer
                TransactionStatus.pending).2
              req.fromUserId (-req.amount) with ⟨hltA, heA⟩ | ⟨hgeA, heA⟩
          · simp only [heA] at h
            exact OpResult.noConfusion h
          · simp only [heA] at h
            rcases updateBalanceInTx_cases
                (ubitPost (insertTransaction st (some req.fromUserId)
                  (some req.toUserId) req.amount TransactionType.transfer
                  TransactionStatus.pending).2
                  req.fromUserId (-req.amount))
                req.toUserId req.amount with ⟨hltB, heB⟩ | ⟨hgeB, heB⟩
            · simp only [heB] at h
              exact OpResult.noConfusion h
            · simp only [heB] at h
              have htr : (ubitPost (ubitPost (insertTransaction st
                  (some req.fromUserId) (some req.toUserId) req.amount
                  TransactionType.transfer TransactionStatus.pending).2
                  req.fromUserId (-req.amount)) req.toUserId
                  req.amount).transactions =
                  st.transactions ++
                  [{ id := st.nextTransactionId,
                     fromUserId := some req.fromUserId,
                     toUserId := some req.toUserId, amount := req.amount,
                     ty := TransactionType.transfer,
                     status := TransactionStatus.pending,
                     createdAt := st.clock }] := by
                rw [ubitPost_transactions, ubitPost_transactions]
                exact insertTransaction_transactions st (some req.fromUserId)
                  (some req.toUserId) req.amount TransactionType.transfer
                  TransactionStatus.pending
              have hcommit := setStatus_append_commit hf rfl htr
                TransactionStatus.completed
              simp only [insertTransaction_fst, hcommit.2] at h
              injection h with h1 h2
              subst h1
              subst h2
              refine ⟨not_le.mp hval, hne, rfl, hcommit.1, ?_, ?_, ?_, ?_⟩
              · rw [setTransactionStatus_nextTransactionId,
                  ubitPost_nextTransactionId, ubitPost_nextTransactionId]
                rfl
              · rw [show balAmount (setTransactionStatus (ubitPost (ubitPost
                    (insertTransaction st (some req.fromUserId)
                    (some req.toUserId) req.amount TransactionType.transfer
                    TransactionStatus.pending).2 req.fromUserId
                    (-req.amount)) req.toUserId req.amount)
                    st.nextTransactionId TransactionStatus.completed)
                    req.fromUserId =
                    balAmount (ubitPost (ubitPost (insertTransaction st
                    (some req.fromUserId) (some req.toUserId) req.amount
                    TransactionType.transfer TransactionStatus.pending).2
                    req.fromUserId (-req.amount)) req.toUserId req.amount)
                    req.fromUserId from rfl,
                  ubitPost_balAmount_other _ req.amount hne,
                  ubitPost_balAmount_self]
                exact (sub_eq_add_neg _ _).symm
              · rw [show balAmount (setTransactionStatus (ubitPost (ubitPost
                    (insertTransaction st (some req.fromUserId)
                    (some req.toUserId) req.amount TransactionType.transfer
                    TransactionStatus.pending).2 req.fromUserId
                    (-req.amount)) req.toUserId req.amount)
                    st.nextTransactionId TransactionStatus.completed)
                    req.toUserId =
                    balAmount (ubitPost (ubitPost (insertTransaction st
                    (some req.fromUserId) (some req.toUserId) req.amount
                    TransactionType.transfer TransactionStatus.pending).2
                    req.fromUserId (-req.amount)) req.toUserId req.amount)
                    req.toUserId from rfl,
                  ubitPost_balAmount_self,
                  ubitPost_balAmount_other _ (-req.amount) (Ne.symm hne)]
                rfl
              · intro v hvf hvt
                rw [show balAmount (setTransactionStatus (ubitPost (ubitPost
                    (insertTransaction st (some req.fromUserId)
                    (some req.toUserId) req.amount TransactionType.transfer
                    TransactionStatus.pending).2 req.fromUserId
                    (-req.amount)) req.toUserId req.amount)
                    st.nextTransactionId TransactionStatus.completed) v =
                    balAmount (ubitPost (ubitPost (insertTransaction st
                    (some req.fromUserId) (some req.toUserId) req.amount
                    TransactionType.transfer TransactionStatus.pending).2
                    req.fromUserId (-req.amount)) req.toUserId req.amount)
                    v from rfl,
                  ubitPost_balAmount_other _ req.amount hvt,
                  ubitPost_balAmount_other _ (-req.amount) hvf]
                rfl

theorem Credit_err_spec {st : Ledger} {req : CreditRequest} {e : String}
    {st' : Ledger} (hf : freshTransactionIds st)
    (h : Credit st req = OpResult.err e st') :
    st' = st := by
  by_cases hval : req.amount ≤ 0
  · simp only [Credit, if_pos hval] at h
    injection h with h1 h2
    exact h2.symm
  · rcases updateBalanceInTx_cases
        (insertTransaction st none (some req.userId) req.amount
          TransactionType.credit TransactionStatus.pending).2
        req.userId req.amount with ⟨hlt, he⟩ | ⟨hge, he⟩
    · simp only [Credit, if_neg hval, he] at h
      injection h with h1 h2
      exact h2.symm
    · have htr : (ubitPost (insertTransaction st none (some req.userId)
          req.amount TransactionType.credit TransactionStatus.pending).2
          req.userId req.amount).transactions =
          st.transactions ++
          [{ id := st.nextTransactionId, fromUserId := none,
             toUserId := some req.userId, amount := req.amount,
             ty := TransactionType.credit,
             status := TransactionStatus.pending,
             createdAt := st.clock }] := by
        rw [ubitPost_transactions]
        exact insertTransaction_transactions st none (some req.userId)
          req.amount TransactionType.credit TransactionStatus.pending
      have hcommit := setStatus_append_commit hf rfl htr
        TransactionStatus.completed
      simp only [Credit, if_neg hval, he, insertTransaction_fst,
        hcommit.2] at h
      exact OpResult.noConfusion h

theorem Debit_err_spec {st : Ledger} {req : DebitRequest} {e : String}
    {st' : Ledger} (hf : freshTransactionIds st)
    (h : Debit st req = OpResult.err e st') :
    (∀ v, balAmount st' v = balAmount st v) ∧
    st'.transactions = st.transactions ∧
    st'.nextTransactionId = st.nextTransactionId := by
  have hfg : ∀ r ∈ (GetBalance st req.userId).2.transactions,
      r.id < (GetBalance st req.userId).2.nextTransactionId := by
    rw [GetBalance_transactions, GetBalance_nextTransactionId]
    exact hf
  by_cases hval : req.amount ≤ 0
  · simp only [Debit, if_pos hval] at h
    injection h with h1 h2
    subst h2
    exact ⟨fun v => rfl, rfl, rfl⟩
  · by_cases hpre : (GetBalance st req.userId).1.amount < req.amount
    · simp only [Debit, if_neg hval, if_pos hpre] at h
      injection h with h1 h2
      subst h2
      exact ⟨fun v => GetBalance_balAmount st req.userId v,
        GetBalance_transactions st req.userId,
        GetBalance_nextTransactionId st req.userId⟩
    · rcases updateBalanceInTx_cases
          (insertTransaction (GetBalance st req.userId).2 (some req.userId)
            none req.amount TransactionType.debit
            TransactionStatus.pending).2
          req.userId (-req.amount) with ⟨hlt, he⟩ | ⟨hge, he⟩
      · simp only [Debit, if_neg hval, if_neg hpre, he] at h
        injection h with h1 h2
        subst h2
        exact ⟨fun v => GetBalance_balAmount st req.userId v,
          GetBalance_transactions st req.userId,
          GetBalance_nextTransactionId st req.userId⟩
      · have htr : (ubitPost (insertTransaction (GetBalance st req.userId).2
            (some req.userId) none req.amount TransactionType.debit
            TransactionStatus.pending).2 req.userId
            (-req.amount)).transactions =
            (GetBalance st req.userId).2.transactions ++
            [{ id := (GetBalance st req.userId).2.nextTransactionId,
               fromUserId := some req.userId, toUserId := none,
               amount := req.amount, ty := TransactionType.debit,
               status := TransactionStatus.pending,
               createdAt := (GetBalance st req.userId).2.clock }] := by
          rw [ubitPost_transactions]
          exact insertTransaction_transactions (GetBalance st req.userId).2
            (some req.userId) none req.amount TransactionType.debit
            TransactionStatus.pending
        have hcommit := setStatus_append_commit hfg rfl htr
          TransactionStatus.completed
        simp only [Debit, if_neg hval, if_neg hpre, he, insertTransaction_fst,
          hcommit.2] at h
        exact OpResult.noConfusion h

theorem Transfer_err_spec {st : Ledger} {req : TransferRequest} {e : String}
    {st' : Ledger} (hf : freshTransactionIds st)
    (h : Transfer st req = OpResult.err e st') :
    (∀ v, balAmount st' v = balAmount st v) ∧
    st'.transactions = st.transactions ∧
    st'.nextTransactionId = st.nextTransactionId := by
  have hfg : ∀ r ∈ (GetBalance st req.fromUserId).2.transactions,
      r.id < (GetBalance st req.fromUserId).2.nextTransactionId := by
    rw [GetBalance_transactions, GetBalance_nextTransactionId]
    exact hf
  by_cases hval : req.amount ≤ 0
  · simp only [Transfer, if_pos hval] at h
    injection h with h1 h2
    subst h2
    exact ⟨fun v => rfl, rfl, rfl⟩
  · by_cases hsame : (req.fromUserId == req.toUserId) = true
    · simp only [Transfer, if_neg hval, if_pos hsame] at h
      injection h with h1 h2
      subst h2
      exact ⟨fun v => rfl, rfl, rfl⟩
    · by_cases hpre : (GetBalance st req.fromUserId).1.amount < req.amount
      · simp only [Transfer, if_neg hval, if_neg hsame, if_pos hpre] at h
        injection h with h1 h2
        subst h2
        exact ⟨fun v => GetBalance_balAmount st req.fromUserId v,
          GetBalance_transactions st req.fromUserId,
          GetBalance_nextTransactionId st req.fromUserId⟩
      · rcases updateBalanceInTx_cases
            (insertTransaction (GetBalance st req.fromUserId).2
              (some req.fromUserId) (some req.toUserId) req.amount
              TransactionType.transfer TransactionStatus.pending).2
            req.fromUserId (-req.amount) with ⟨hltA, heA⟩ | ⟨hgeA, heA⟩
        · simp only [Transfer, if_neg hval, if_neg hsame, if_neg hpre,
            heA] at h
          injection h with h1 h2
          subst h2
          exact ⟨fun v => GetBalance_balAmount st req.fromUserId v,
            GetBalance_transactions st req.fromUserId,
            GetBalance_nextTransactionId st req.fromUserId⟩
        · rcases updateBalanceInTx_cases
              (ubitPost (insertTransaction (GetBalance st req.fromUserId).2
                (some req.fromUserId) (some req.toUserId) req.amount
                TransactionType.transfer TransactionStatus.pending).2
                req.fromUserId (-req.amount))
              req.toUserId req.amount with ⟨hltB, heB⟩ | ⟨hgeB, heB⟩
          · simp only [Transfer, if_neg hval, if_neg hsame, if_neg hpre,
              heA, heB] at h
            injection h with h1 h2
            subst h2
            exact ⟨fun v => GetBalance_balAmount st req.fromUserId v,
              GetBalance_transactions st req.fromUserId,
              GetBalance_nextTransactionId st req.fromUserId⟩
          · have htr : (ubitPost (ubitPost (insertTransaction
                (GetBalance st req.fromUserId).2 (some req.fromUserId)
                (some req.toUserId) req.amount TransactionType.transfer
                TransactionStatus.pending).2 req.fromUserId (-req.amount))
                req.toUserId req.amount).transactions =
                (GetBalance st req.fromUserId).2.transactions ++
                [{ id := (GetBalance st req.fromUserId).2.nextTransactionId,
                   fromUserId := some req.fromUserId,
                   toUserId := some req.toUserId, amount := req.amount,
                   ty := TransactionType.transfer,
                   status := TransactionStatus.pending,
                   createdAt := (GetBalance st req.fromUserId).2.clock }] := by
              rw [ubitPost_transactions, ubitPost_transactions]
              exact insertTransaction_transactions
                (GetBalance st req.fromUserId).2 (some req.fromUserId)
                (some req.toUserId) req.amount TransactionType.transfer
                TransactionStatus.pending
            have hcommit := setStatus_append_commit hfg rfl htr
              TransactionStatus.completed
            simp only [Transfer, if_neg hval, if_neg hsame, if_neg hpre, heA,
              heB, insertTransaction_fst, hcommit.2] at h
            exact OpResult.noConfusion h

/-! ### Transfer atomicity (claim C2) -/

/-- C2: `Transfer` is all-or-nothing. On success it decreases the sender's
balance by the amount, increases the receiver's by the same amount, and
appends exactly one transaction record, of type transfer with status
`completed` and the request's accounts and amount; on failure it returns an
error with every balance amount unchanged and the transaction table
unchanged (no record created). States reachable by the code satisfy the
auto-increment discipline `freshTransactionIds`. -/
theorem transfer_atomicity (st : Ledger) (req : TransferRequest)
    (hf : freshTransactionIds st) :
    (∀ t st', Transfer st req = OpResult.ok t st' →
      balAmount st' req.fromUserId = balAmount st req.fromUserId -
        req.amount ∧
      balAmount st' req.toUserId = balAmount st req.toUserId + req.amount ∧
      st'.transactions = st.transactions ++ [t] ∧
      t.ty = TransactionType.transfer ∧
      t.status = TransactionStatus.completed ∧
      t.fromUserId = some req.fromUserId ∧
      t.toUserId = some req.toUserId ∧
      t.amount = req.amount) ∧
    (∀ e st', Transfer st req = OpResult.err e st' →
      (∀ v, balAmount st' v = balAmount st v) ∧
      st'.transactions = st.transactions) := by
  constructor
  · intro t st' h
    obtain ⟨hpos, hne, ht, htr, hnext, hfrom, hto, hother⟩ :=
      Transfer_ok_spec hf h
    subst ht
    exact ⟨hfrom, hto, htr, rfl, rfl, rfl, rfl, rfl⟩
  · intro e st' h
    obtain ⟨hb, htr, hnext⟩ := Transfer_err_spec hf h
    exact ⟨hb, htr⟩

/-- A store holding account 1 with balance 10. -/
def ledgerW2 : Ledger :=
  { balances := [{ userId := 1, amount := 10, lastUpdatedAt := 0 }],
    history := [], transactions := [], nextTransactionId := 1,
    nextHistoryId := 1, clock := 0 }

theorem transfer_atomicity_witness :
    freshTransactionIds ledgerW2 ∧
    ((∀ t st', Transfer ledgerW2
        { fromUserId := 1, toUserId := 2, amount := 4 } =
          OpResult.ok t st' →
      balAmount st' 1 = balAmount ledgerW2 1 - 4 ∧
      balAmount st' 2 = balAmount ledgerW2 2 + 4 ∧
      st'.transactions = ledgerW2.transactions ++ [t] ∧
      t.ty = TransactionType.transfer ∧
      t.status = TransactionStatus.completed ∧
      t.fromUserId = some 1 ∧
      t.toUserId = some 2 ∧
      t.amount = 4) ∧
    (∀ e st', Transfer ledgerW2
        { fromUserId := 1, toUserId := 2, amount := 4 } =
          OpResult.err e st' →
      (∀ v, balAmount st' v = balAmount ledgerW2 v) ∧
      st'.transactions = ledgerW2.transactions)) := by
  have hf : freshTransactionIds ledgerW2 := by
    intro t ht
    simp [ledgerW2] at ht
  exact ⟨hf, transfer_atomicity ledgerW2
    { fromUserId := 1, toUserId := 2, amount := 4 } hf⟩

/-! ### Rollback (claims C4, C5) -/

theorem RollbackTransaction_already {st2 : Ledger} {i : Nat}
    {t : Transaction} (hgt : GetTransactionByID st2 i = Except.ok t)
    (hst : t.status = TransactionStatus.rolled_back) :
    RollbackTransaction st2 i =
      OpResult.err "transaction already rolled back" st2 := by
  simp only [RollbackTransaction, hgt]
  rw [if_pos hst]

theorem RollbackTransaction_completed_credit {st1 : Ledger} {t : Transaction}
    {a : Nat} (hgt : GetTransactionByID st1 t.id = Except.ok t)
    (hst : t.status = TransactionStatus.completed)
    (hty : t.ty = TransactionType.credit) (hto : t.toUserId = some a)
    (hge : 0 ≤ balAmount st1 a + (-t.amount)) :
    RollbackTransaction st1 t.id = OpResult.ok ()
      (setTransactionStatus (ubitPost st1 a (-t.amount)) t.id
        TransactionStatus.rolled_back) := by
  have hrd : rollbackDeltas st1 t =
      Except.ok (ubitPost st1 a (-t.amount)) := by
    simp only [rollbackDeltas, hty, hto, updateBalanceInTx_eq_ok hge]
  simp only [RollbackTransaction, hgt]
  rw [if_neg (by rw [hst]; simp), if_neg (by rw [hst]; simp)]
  simp only [hrd]

/-- C4: a successful `Credit(A, amount)` followed by
`RollbackTransaction` on the returned transaction id (with no interleaved
operation) restores A's pre-credit balance, and a second
`RollbackTransaction` on the same id fails with the
`"transaction already rolled back"` error, leaving the store unchanged.
States reachable by the code have non-negative balances and satisfy the
auto-increment discipline. -/
theorem credit_rollback_roundtrip (st : Ledger) (req : CreditRequest)
    (t : Transaction) (st1 : Ledger) (hf : freshTransactionIds st)
    (h0 : 0 ≤ balAmount st req.userId)
    (hok : Credit st req = OpResult.ok t st1) :
    ∃ st2, RollbackTransaction st1 t.id = OpResult.ok () st2 ∧
      balAmount st2 req.userId = balAmount st req.userId ∧
      RollbackTransaction st2 t.id =
        OpResult.err "transaction already rolled back" st2 := by
  obtain ⟨hpos, hge, ht, htr1, hnext1, hself, hother⟩ := Credit_ok_spec hf hok
  subst ht
  have hgt1 := GetTransactionByID_append_last hf rfl htr1
  have hge2 : 0 ≤ balAmount st1 req.userId + (-req.amount) := by
    rw [hself]
    simpa using h0
  have hr1 := @RollbackTransaction_completed_credit st1
    ({ id := st.nextTransactionId, fromUserId := none,
       toUserId := some req.userId, amount := req.amount,
       ty := TransactionType.credit,
       status := TransactionStatus.completed, createdAt := st.clock })
    req.userId hgt1 rfl rfl rfl hge2
  have htr2 : (ubitPost st1 req.userId (-req.amount)).transactions =
      st.transactions ++
      [{ id := st.nextTransactionId, fromUserId := none,
         toUserId := some req.userId, amount := req.amount,
         ty := TransactionType.credit,
         status := TransactionStatus.completed, createdAt := st.clock }] := by
    rw [ubitPost_transactions]
    exact htr1
  have hcommit2 := setStatus_append_commit hf rfl htr2
    TransactionStatus.rolled_back
  refine ⟨setTransactionStatus (ubitPost st1 req.userId (-req.amount))
    st.nextTransactionId TransactionStatus.rolled_back, hr1, ?_, ?_⟩
  · rw [show balAmount (setTransactionStatus
      (ubitPost st1 req.userId (-req.amount))
      st.nextTransactionId TransactionStatus.rolled_back) req.userId =
      balAmount (ubitPost st1 req.userId (-req.amount)) req.userId from rfl,
      ubitPost_balAmount_self, hself]
    ring
  · exact RollbackTransaction_already hcommit2.2 rfl

/-- The transaction record returned by `Credit ledgerW ⟨1, 100⟩`. -/
def creditW : Transaction :=
  { id := 1, fromUserId := none, toUserId := some 1, amount := 100,
    ty := TransactionType.credit, status := TransactionStatus.completed,
    createdAt := 0 }

/-- The store committed by `Credit ledgerW ⟨1, 100⟩`. -/
def ledgerW4 : Ledger :=
  { balances := [{ userId := 1, amount := 100, lastUpdatedAt := 1 }],
    history :=
      [{ id := 1, userId := 1, balance := 100, changeAmount := 100,
         transactionId := none, createdAt := 2 }],
    transactions := [creditW],
    nextTransactionId := 2, nextHistoryId := 2, clock := 3 }

theorem credit_rollback_roundtrip_witness :
    freshTransactionIds ledgerW ∧ 0 ≤ balAmount ledgerW 1 ∧
    Credit ledgerW { userId := 1, amount := 100 } =
      OpResult.ok creditW ledgerW4 ∧
    (∃ st2, RollbackTransaction ledgerW4 creditW.id = OpResult.ok () st2 ∧
      balAmount st2 1 = balAmount ledgerW 1 ∧
      RollbackTransaction st2 creditW.id =
        OpResult.err "transaction already rolled back" st2) := by
  have hf : freshTransactionIds ledgerW := by
    intro t ht
    simp [ledgerW] at ht
  have h0 : 0 ≤ balAmount ledgerW 1 := by
    simp [balAmount, findBalance, ledgerW]
  have hok : Credit ledgerW { userId := 1, amount := 100 } =
      OpResult.ok creditW ledgerW4 := by
    norm_num [Credit, ledgerW, insertTransaction, updateBalanceInTx,
      findBalance, appendHistory, setTransactionStatus, GetTransactionByID,
      creditW, ledgerW4]
  exact ⟨hf, h0, hok, credit_rollback_roundtrip ledgerW
    { userId := 1, amount := 100 } creditW ledgerW4 hf h0 hok⟩

/-! ### Status state machine (claim C5) -/

/-- One core operation performs only legal status transitions: every record
of the post state either corresponds to a pre-state record with the same id
whose status is unchanged or went `completed → rolled_back`, or is a newly
created record with status `completed`. -/
def legalStatusStep (pre post : Ledger) : Prop :=
  ∀ q ∈ post.transactions,
    (∃ r ∈ pre.transactions, r.id = q.id ∧
      (q.status = r.status ∨
        (r.status = TransactionStatus.completed ∧
          q.status = TransactionStatus.rolled_back))) ∨
    q.status = TransactionStatus.completed

theorem legalStatusStep_of_eq {pre post : Ledger}
    (h : post.transactions = pre.transactions) : legalStatusStep pre post := by
  intro q hq
  rw [h] at hq
  exact Or.inl ⟨q, hq, rfl, Or.inl rfl⟩

theorem legalStatusStep_append {pre post : Ledger} {t : Transaction}
    (h : post.transactions = pre.transactions ++ [t])
    (ht : t.status = TransactionStatus.completed) :
    legalStatusStep pre post := by
  intro q hq
  rw [h] at hq
  rcases List.mem_append.mp hq with hq | hq
  · exact Or.inl ⟨q, hq, rfl, Or.inl rfl⟩
  · rw [List.mem_singleton.mp hq]
    exact Or.inr ht

theorem statusesCommitted_of_eq {pre post : Ledger}
    (h : post.transactions = pre.transactions)
    (hs : statusesCommitted pre) : statusesCommitted post := by
  intro q hq
  rw [h] at hq
  exact hs q hq

theorem statusesCommitted_append {pre post : Ledger} {t : Transaction}
    (h : post.transactions = pre.transactions ++ [t])
    (ht : t.status = TransactionStatus.completed)
    (hs : statusesCommitted pre) : statusesCommitted post := by
  intro q hq
  rw [h] at hq
  rcases List.mem_append.mp hq with hq | hq
  · exact hs q hq
  · rw [List.mem_singleton.mp hq]
    exact Or.inl ht

theorem freshTransactionIds_of_eq {pre post : Ledger}
    (h : post.transactions = pre.transactions)
    (hn : post.nextTransactionId = pre.nextTransactionId)
    (hf : freshTransactionIds pre) : freshTransactionIds post := by
  intro q hq
  rw [h] at hq
  rw [hn]
  exact hf q hq

theorem freshTransactionIds_append {pre post : Ledger} {t : Transaction}
    (h : post.transactions = pre.transactions ++ [t])
    (htid : t.id = pre.nextTransactionId)
    (hn : post.nextTransactionId = pre.nextTransactionId + 1)
    (hf : freshTransactionIds pre) : freshTransactionIds post := by
  intro q hq
  rw [h] at hq
  rw [hn]
  rcases List.mem_append.mp hq with hq | hq
  · exact Nat.lt_succ_of_lt (hf q hq)
  · rw [List.mem_singleton.mp hq, htid]
    exact Nat.lt_succ_self _

theorem mem_setStatus {st1 : Ledger} {i : Nat} {s : TransactionStatus}
    {q : Transaction}
    (h : q ∈ (setTransactionStatus st1 i s).transactions) :
    ∃ r ∈ st1.transactions,
      q = if r.id == i then { r with status := s } else r := by
  simp only [setTransactionStatus, List.mem_map] at h
  obtain ⟨r, hr, heq⟩ := h
  exact ⟨r, hr, heq.symm⟩

theorem rollbackDeltas_frame {st st' : Ledger} {t : Transaction}
    (h : rollbackDeltas st t = Except.ok st') :
    st'.transactions = st.transactions ∧
    st'.nextTransactionId = st.nextTransactionId := by
  unfold rollbackDeltas at h
  cases hty : t.ty with
  | credit =>
    rw [hty] at h
    cases hto : t.toUserId with
    | none =>
      rw [hto] at h
      injection h with h
      exact h ▸ ⟨rfl, rfl⟩
    | some toId =>
      rw [hto] at h
      rcases updateBalanceInTx_cases st toId (-t.amount) with ⟨_, he⟩ | ⟨_, he⟩
      · simp only [he] at h
        exact absurd h (by simp)
      · simp only [he] at h
        injection h with h
        exact h ▸ ⟨ubitPost_transactions _ _ _, ubitPost_nextTransactionId _ _ _⟩
  | debit =>
    rw [hty] at h
    cases hfrom : t.fromUserId with
    | none =>
      rw [hfrom] at h
      injection h with h
      exact h ▸ ⟨rfl, rfl⟩
    | some fromId =>
      rw [hfrom] at h
      rcases updateBalanceInTx_cases st fromId t.amount with ⟨_, he⟩ | ⟨_, he⟩
      · simp only [he] at h
        exact absurd h (by simp)
      · simp only [he] at h
        injection h with h
        exact h ▸ ⟨ubitPost_transactions _ _ _, ubitPost_nextTransactionId _ _ _⟩
  | transfer =>
    rw [hty] at h
    cases hfrom : t.fromUserId with
    | none =>
      rw [hfrom] at h
      cases hto : t.toUserId with
      | none =>
        rw [hto] at h
        injection h with h
        exact h ▸ ⟨rfl, rfl⟩
      | some toId =>
        rw [hto] at h
        injection h with h
        exact h ▸ ⟨rfl, rfl⟩
    | some fromId =>
      rw [hfrom] at h
      cases hto : t.toUserId with
      | none =>
        rw [hto] at h
        injection h with h
        exact h ▸ ⟨rfl, rfl⟩
      | some toId =>
        rw [hto] at h
        rcases updateBalanceInTx_cases st fromId t.amount with ⟨_, heA⟩ | ⟨_, heA⟩
        · simp only [heA] at h
          exact absurd h (by simp)
        · simp only [heA] at h
          rcases updateBalanceInTx_cases (ubitPost st fromId t.amount) toId
              (-t.amount) with ⟨_, heB⟩ | ⟨_, heB⟩
          · simp only [heB] at h
            exact absurd h (by simp)
          · simp only [heB] at h
            injection h with h
            subst h
            constructor
            · rw [ubitPost_transactions, ubitPost_transactions]
            · rw [ubitPost_nextTransactionId, ubitPost_nextTransactionId]

theorem RollbackTransaction_cases (st : Ledger) (i : Nat) :
    (∃ e, RollbackTransaction st i = OpResult.err e st) ∨
    (∃ t st1, GetTransactionByID st i = Except.ok t ∧
      t.status = TransactionStatus.completed ∧
      rollbackDeltas st t = Except.ok st1 ∧
      RollbackTransaction st i = OpResult.ok ()
        (setTransactionStatus st1 i TransactionStatus.rolled_back)) := by
  cases hgt : GetTransactionByID st i with
  | error e =>
    exact Or.inl ⟨e, by simp only [RollbackTransaction, hgt]⟩
  | ok t =>
    by_cases hrb : t.status = TransactionStatus.rolled_back
    · refine Or.inl ⟨"transaction already rolled back", ?_⟩
      simp only [RollbackTransaction, hgt]
      rw [if_pos hrb]
    · by_cases hcomp : t.status ≠ TransactionStatus.completed
      · refine Or.inl ⟨"only completed transactions can be rolled back", ?_⟩
        simp only [RollbackTransaction, hgt]
        rw [if_neg hrb, if_pos hcomp]
      · cases hrd : rollbackDeltas st t with
        | error e =>
          refine Or.inl ⟨e, ?_⟩
          simp only [RollbackTransaction, hgt]
          rw [if_neg hrb, if_neg hcomp]
          simp only [hrd]
        | ok st1 =>
          refine Or.inr ⟨t, st1, rfl, not_not.mp hcomp, hrd, ?_⟩
          simp only [RollbackTransaction, hgt]
          rw [if_neg hrb, if_neg hcomp]
          simp only [hrd]

theorem Debit_ok_spec {st : Ledger} {req : DebitRequest} {t : Transaction}
    {st' : Ledger} (hf : freshTransactionIds st)
    (h : Debit st req = OpResult.ok t st') :
    t = { id := st.nextTransactionId, fromUserId := some req.userId,
          toUserId := none, amount := req.amount,
          ty := TransactionType.debit,
          status := TransactionStatus.completed, createdAt := st.clock } ∧
    st'.transactions = st.transactions ++ [t] ∧
    st'.nextTransactionId = st.nextTransactionId + 1 := by
  by_cases hval : req.amount ≤ 0
  · simp only [Debit, if_pos hval] at h
    exact OpResult.noConfusion h
  · cases hgb : findBalance st.balances req.userId with
    | none =>
      have hpre : (GetBalance st req.userId).1.amount < req.amount := by
        rw [GetBalance_amount, balAmount, hgb]
        exact not_le.mp hval
      simp only [Debit, if_neg hval, if_pos hpre] at h
      exact OpResult.noConfusion h
    | some b =>
      have hg2 : GetBalance st req.userId = (b, st) := by
        simp [GetBalance, hgb]
      simp only [Debit, if_neg hval, hg2] at h
      by_cases hpre : b.amount < req.amount
      · rw [if_pos hpre] at h
        exact OpResult.noConfusion h
      · rw [if_neg hpre] at h
        rcases updateBalanceInTx_cases
            (insertTransaction st (some req.userId) none req.amount
              TransactionType.debit TransactionStatus.pending).2
            req.userId (-req.amount) with ⟨hlt, he⟩ | ⟨hge, he⟩
        · simp only [he] at h
          exact OpResult.noConfusion h
        · simp only [he] at h
          have htr : (ubitPost (insertTransaction st (some req.userId) none
              req.amount TransactionType.debit TransactionStatus.pending).2
              req.userId (-req.amount)).transactions =
              st.transactions ++
              [{ id := st.nextTransactionId, fromUserId := some req.userId,
                 toUserId := none, amount := req.amount,
                 ty := TransactionType.debit,
                 status := TransactionStatus.pending,
                 createdAt := st.clock }] := by
            rw [ubitPost_transactions]
            exact insertTransaction_transactions st (some req.userId) none
              req.amount TransactionType.debit TransactionStatus.pending
          have hcommit := setStatus_append_commit hf rfl htr
            TransactionStatus.completed
          simp only [insertTransaction_fst, hcommit.2] at h
          injection h with h1 h2
          subst h1
          subst h2
          refine ⟨rfl, hcommit.1, ?_⟩
          rw [setTransactionStatus_nextTransactionId,
            ubitPost_nextTransactionId]
          rfl

/-- C5: transaction-record statuses follow
`Pending → Completed → RolledBack` with `RolledBack` terminal. A record is
created `pending` and set `completed` inside the same atomic unit, so in
every committed state each record is `completed` or `rolled_back` (never
an observable `pending`, and the declared `failed` status is never
written); every core operation only leaves a record's status unchanged,
creates it `completed`, or transitions it `completed → rolled_back` (the
rollback path, guarded to reject records already `rolled_back`). -/
theorem status_state_machine :
    ∀ (st : Ledger) (op : CoreOp), statusesCommitted st →
      freshTransactionIds st →
      statusesCommitted (applyOp st op) ∧
      freshTransactionIds (applyOp st op) ∧
      legalStatusStep st (applyOp st op) := by
  intro st op hs hf
  cases op with
  | credit req =>
    cases hres : Credit st req with
    | ok t st' =>
      obtain ⟨_, _, ht, htr, hnext, _, _⟩ := Credit_ok_spec hf hres
      have hstate : applyOp st (CoreOp.credit req) = st' := by
        simp only [applyOp, hres, OpResult.state]
      rw [hstate]
      have htst : t.status = TransactionStatus.completed := by rw [ht]
      exact ⟨statusesCommitted_append htr htst hs,
        freshTransactionIds_append htr (by rw [ht]) hnext hf,
        legalStatusStep_append htr htst⟩
    | err e st' =>
      have h2 := Credit_err_spec hf hres
      have hstate : applyOp st (CoreOp.credit req) = st' := by
        simp only [applyOp, hres, OpResult.state]
      rw [hstate, h2]
      exact ⟨hs, hf, legalStatusStep_of_eq rfl⟩
  | debit req =>
    cases hres : Debit st req with
    | ok t st' =>
      obtain ⟨ht, htr, hnext⟩ := Debit_ok_spec hf hres
      have hstate : applyOp st (CoreOp.debit req) = st' := by
        simp only [applyOp, hres, OpResult.state]
      rw [hstate]
      have htst : t.status = TransactionStatus.completed := by rw [ht]
      exact ⟨statusesCommitted_append htr htst hs,
        freshTransactionIds_append htr (by rw [ht]) hnext hf,
        legalStatusStep_append htr htst⟩
    | err e st' =>
      obtain ⟨_, htr, hnext⟩ := Debit_err_spec hf hres
      have hstate : applyOp st (CoreOp.debit req) = st' := by
        simp only [applyOp, hres, OpResult.state]
      rw [hstate]
      exact ⟨statusesCommitted_of_eq htr hs,
        freshTransactionIds_of_eq htr hnext hf, legalStatusStep_of_eq htr⟩
  | transfer req =>
    cases hres : Transfer st req with
    | ok t st' =>
      obtain ⟨_, _, ht, htr, hnext, _, _, _⟩ := Transfer_ok_spec hf hres
      have hstate : applyOp st (CoreOp.transfer req) = st' := by
        simp only [applyOp, hres, OpResult.state]
      rw [hstate]
      have htst : t.status = TransactionStatus.completed := by rw [ht]
      exact ⟨statusesCommitted_append htr htst hs,
        freshTransactionIds_append htr (by rw [ht]) hnext hf,
        legalStatusStep_append htr htst⟩
    | err e st' =>
      obtain ⟨_, htr, hnext⟩ := Transfer_err_spec hf hres
      have hstate : applyOp st (CoreOp.transfer req) = st' := by
        simp only [applyOp, hres, OpResult.state]
      rw [hstate]
      exact ⟨statusesCommitted_of_eq htr hs,
        freshTransactionIds_of_eq htr hnext hf, legalStatusStep_of_eq htr⟩
  | rollback i =>
    rcases RollbackTransaction_cases st i with ⟨e, hres⟩ |
      ⟨t, st1, hgt, hst, hrd, hres⟩
    · have hstate : applyOp st (CoreOp.rollback i) = st := by
        simp only [applyOp, hres, OpResult.state]
      rw [hstate]
      exact ⟨hs, hf, legalStatusStep_of_eq rfl⟩
    · obtain ⟨htr1, hn1⟩ := rollbackDeltas_frame hrd
      have hstate : applyOp st (CoreOp.rollback i) =
          setTransactionStatus st1 i TransactionStatus.rolled_back := by
        simp only [applyOp, hres, OpResult.state]
      rw [hstate]
      refine ⟨?_, ?_, ?_⟩
      · intro q hq
        obtain ⟨r, hr, hre⟩ := mem_setStatus hq
        rw [htr1] at hr
        by_cases hid : (r.id == i) = true
        · rw [hre, if_pos hid]
          exact Or.inr rfl
        · rw [hre, if_neg hid]
          exact hs r hr
      · intro q hq
        obtain ⟨r, hr, hre⟩ := mem_setStatus hq
        rw [htr1] at hr
        have hsn : (setTransactionStatus st1 i
            TransactionStatus.rolled_back).nextTransactionId =
            st.nextTransactionId := by
          rw [setTransactionStatus_nextTransactionId, hn1]
        rw [hsn]
        by_cases hid : (r.id == i) = true
        · rw [hre, if_pos hid]
          exact hf r hr
        · rw [hre, if_neg hid]
          exact hf r hr
      · intro q hq
        obtain ⟨r, hr, hre⟩ := mem_setStatus hq
        rw [htr1] at hr
        by_cases hid : (r.id == i) = true
        · rcases hs r hr with hrs | hrs
          · exact Or.inl ⟨r, hr, by rw [hre, if_pos hid],
              Or.inr ⟨hrs, by rw [hre, if_pos hid]⟩⟩
          · exact Or.inl ⟨r, hr, by rw [hre, if_pos hid],
              Or.inl (by rw [hre, if_pos hid, hrs])⟩
        · exact Or.inl ⟨r, hr, by rw [hre, if_neg hid],
            Or.inl (by rw [hre, if_neg hid])⟩
  | updateBalance uid amt =>
    rcases updateBalanceInTx_cases st uid amt with ⟨_, he⟩ | ⟨_, he⟩
    · have hstate : applyOp st (CoreOp.updateBalance uid amt) = st := by
        simp only [applyOp, UpdateBalance, he, OpResult.state]
      rw [hstate]
      exact ⟨hs, hf, legalStatusStep_of_eq rfl⟩
    · have hstate : applyOp st (CoreOp.updateBalance uid amt) =
          ubitPost st uid amt := by
        simp only [applyOp, UpdateBalance, he, OpResult.state]
      rw [hstate]
      exact ⟨statusesCommitted_of_eq (ubitPost_transactions st uid amt) hs,
        freshTransactionIds_of_eq (ubitPost_transactions st uid amt)
          (ubitPost_nextTransactionId st uid amt) hf,
        legalStatusStep_of_eq (ubitPost_transactions st uid amt)⟩

theorem status_state_machine_witness :
    statusesCommitted ledgerW2 ∧ freshTransactionIds ledgerW2 ∧
    (statusesCommitted (applyOp ledgerW2 (CoreOp.debit ⟨1, 4⟩)) ∧
      freshTransactionIds (applyOp ledgerW2 (CoreOp.debit ⟨1, 4⟩)) ∧
      legalStatusStep ledgerW2 (applyOp ledgerW2 (CoreOp.debit ⟨1, 4⟩))) := by
  have hs : statusesCommitted ledgerW2 := by
    intro t ht
    simp [ledgerW2] at ht
  have hf : freshTransactionIds ledgerW2 := by
    intro t ht
    simp [ledgerW2] at ht
  exact ⟨hs, hf, status_state_machine ledgerW2 (CoreOp.debit ⟨1, 4⟩) hs hf⟩

end LedgerSpec
